import Mathlib

/-!
Verification of the scheduling / synchronization / memory-mapping core of a
teaching OS kernel (rCore lab).  The definitions below are a shallow embedding
of the Rust sources `os/src/task/processor.rs` and `os/src/syscall/sync.rs`.
Machine integers are modelled as `Nat` / `Int`; Rust functions that can panic
(`unwrap`, `assert!`, out-of-range `Vec` indexing) are modelled as `Option`
results or carry in-bounds hypotheses in the theorems.  Collaborators that are
outside the given sources (the `MemorySet` page-table interface and the
internals of the `Mutex` / `Semaphore` / `Condvar` primitives) are modelled
from the specification and marked as such in their doc comments.
-/

set_option maxRecDepth 10000

namespace RCore

/-! ## Address-space model (processor.rs and its MemorySet collaborator) -/

/-- rCore `PAGE_SIZE` (4 KiB pages). -/
def PAGE_SIZE : Nat := 4096

/-- `VirtAddr::aligned`: the address is a multiple of the page size. -/
def alignedVA (a : Nat) : Bool := a % PAGE_SIZE == 0

/-- `VirtPageNum::from(VirtAddr)` (floor): page containing the address. -/
def vaFloor (a : Nat) : Nat := a / PAGE_SIZE

/-- `VirtAddr::ceil`: first page boundary at or after the address. -/
def vaCeil (a : Nat) : Nat := (a + PAGE_SIZE - 1) / PAGE_SIZE

/-- A framed map area: the half-open page range `[start_vpn, end_vpn)` with a
permission bit field. -/
structure Area where
  start_vpn : Nat
  end_vpn : Nat
  perm : Nat
deriving DecidableEq, Repr

/-- Does the area cover the given virtual page? -/
def Area.containsVpn (a : Area) (v : Nat) : Bool :=
  a.start_vpn ≤ v && v < a.end_vpn

/-- Modelled from the spec: the address-space collaborator of §6.  `areas` is
the list of framed regions (insertion order preserved, rCore appends);
`shadow` is the set of pages whose page-table entry is physically present but
invalid (a leaf entry that was cleared), so that `translate` can return an
invalid entry rather than `None`. -/
structure MemorySet where
  areas : List Area
  shadow : List Nat
deriving DecidableEq, Repr

/-- Is the page currently mapped (covered by some area)? -/
def mappedVpn (ms : MemorySet) (v : Nat) : Bool :=
  ms.areas.any (fun a => a.containsVpn v)

/-- Modelled from the spec: `translate(vpn) -> Option<PageTableEntry>` of §6,
reduced to the only field read by the sources, `is_valid()`.  A mapped page
yields `some true`, a present-but-invalid entry yields `some false`, an
absent entry yields `none`. -/
def translateVpn (ms : MemorySet) (v : Nat) : Option Bool :=
  if mappedVpn ms v then some true
  else if ms.shadow.contains v then some false
  else none

/-- Modelled from the spec: `insert_framed_area(start_va, end_va, perm)` of §6
appends a freshly backed area covering `[floor start_va, ceil end_va)`. -/
def insert_framed_area (ms : MemorySet) (start_va end_va perm : Nat) : MemorySet :=
  { ms with areas := ms.areas ++ [⟨vaFloor start_va, vaCeil end_va, perm⟩] }

/-- Modelled from the spec: `remove_area_with_start_vpn` of §6 removes the
first area whose starting page equals the given page; absent is a no-op. -/
def removeAreaWithStartVpn : List Area → Nat → List Area
  | [], _ => []
  | a :: rest, v => if a.start_vpn = v then rest else a :: removeAreaWithStartVpn rest v

/-- The pages iterated by `VPNRange::new(s, e)` (empty when `e ≤ s`). -/
def vpnRange (s e : Nat) : List Nat := (List.range (e - s)).map (fun i => s + i)

/-- rCore `MapPermission::U` bit (user accessible). -/
def PERM_U : Nat := 16

/-- `Processor::map_task_memory` (processor.rs:69): scan the page range; if any
page translates to a valid entry, fail with `-1` and no mutation; otherwise
insert a framed area with permission `from_bits(port << 1) | U`. -/
def map_task_memory (ms : MemorySet) (start_va end_va port : Nat) : Int × MemorySet :=
  if (vpnRange (vaFloor start_va) (vaCeil end_va)).any (fun vpn =>
      match translateVpn ms vpn with
      | some pte => pte
      | none => false) then
    (-1, ms)
  else
    (0, insert_framed_area ms start_va end_va ((port <<< 1) ||| PERM_U))

/-- `Processor::unmap_task_memory` (processor.rs:92): scan the page range; if
any page translates to an invalid entry, fail with `-1`; pages with no entry
at all are not checked.  Then remove the area starting at the range start. -/
def unmap_task_memory (ms : MemorySet) (start_va end_va : Nat) : Int × MemorySet :=
  if (vpnRange (vaFloor start_va) (vaCeil end_va)).any (fun vpn =>
      match translateVpn ms vpn with
      | some pte => !pte
      | none => false) then
    (-1, ms)
  else
    (0, { ms with areas := removeAreaWithStartVpn ms.areas (vaFloor start_va) })

/-- `task_mmap` (processor.rs:193): validate alignment and the permission bits
(`port > 0b1000 || port == 0` is rejected), then delegate. -/
def task_mmap (ms : MemorySet) (start len port : Nat) : Int × MemorySet :=
  if !alignedVA start then (-1, ms)
  else if port > 8 || port == 0 then (-1, ms)
  else map_task_memory ms start (start + len) port

/-- `task_munmap` (processor.rs:208): validate alignment, then delegate. -/
def task_munmap (ms : MemorySet) (start len : Nat) : Int × MemorySet :=
  if !alignedVA start then (-1, ms)
  else unmap_task_memory ms start (start + len)

/-! ## Synchronization model (syscall/sync.rs) -/

/-- The relevant ledger fields of a task control block's inner state:
`allocation` (held resources) and `need` (at most one pending request).
A resource is the pair of the class flag (`true` = semaphore, `false` =
mutex, exactly the `flag: bool` convention of the source) and its id. -/
structure TCBInner where
  allocation : List (Bool × Nat)
  need : Option (Bool × Nat)
deriving DecidableEq, Repr

/-- Which `Mutex` implementation was selected at creation time. -/
inductive MutexKind
  | spin
  | blocking
deriving DecidableEq, Repr

/-- Modelled from the spec: the observable state of a mutex primitive
(`is_locked` plus the blocking variant's wait queue of task ids). -/
structure MutexState where
  kind : MutexKind
  locked : Bool
  wait_queue : List Nat
deriving DecidableEq, Repr

/-- Modelled from the spec: a semaphore's live `count` and wait queue. -/
structure SemState where
  count : Int
  wait_queue : List Nat
deriving DecidableEq, Repr

/-- Modelled from the spec: a condvar is a wait queue only. -/
structure CondvarState where
  wait_queue : List Nat
deriving DecidableEq, Repr

/-- The per-process state read and written by the sync syscalls: the task
slots, the three primitive tables, the `dead_lock_detect` toggle and the
identity of the current task (`sys_gettid`, also the slot index used by
`current_task()`). -/
structure ProcessState where
  tasks : List (Option TCBInner)
  mutex_list : List (Option MutexState)
  semaphore_list : List (Option SemState)
  condvar_list : List (Option CondvarState)
  dead_lock_detect : Bool
  current_tid : Nat
deriving DecidableEq, Repr

/-- `fetch_id` closure of `deadlock_detect` (sync.rs:99): concatenated
resource index — mutex ids first, then semaphore ids shifted by the number
of mutex slots. -/
def fetch_id (mlen : Nat) (flag : Bool) (id : Nat) : Nat :=
  match flag with
  | true => id + mlen
  | false => id

/-- `v[i] += 1` on a `Vec<u32>`; Rust panics out of bounds, the theorems
below keep the index in bounds (where `List.set` and the panic agree). -/
def bumpAt (l : List Nat) (i : Nat) : List Nat :=
  l.set i (l.getD i 0 + 1)

/-- The matrix-building loop of `deadlock_detect` (sync.rs:105): for each
present task slot, add 1 to `allocation` for every held resource and to
`need` for the pending request, at flattened index `fetch_id(..) + len*tid`.
The Rust `for` loop over `tasks.iter().enumerate()` is written as structural
recursion carrying the running `tid`. -/
def buildRowsAux (len mlen : Nat) :
    List (Option TCBInner) → Nat → List Nat × List Nat → List Nat × List Nat
  | [], _, acc => acc
  | tcb :: rest, tid, (alloc, need) =>
    match tcb with
    | none => buildRowsAux len mlen rest (tid + 1) (alloc, need)
    | some task =>
      let alloc2 := task.allocation.foldl
        (fun a r => bumpAt a (fetch_id mlen r.1 r.2 + len * tid)) alloc
      let need2 := match task.need with
        | some nd => bumpAt need (fetch_id mlen nd.1 nd.2 + len * tid)
        | none => need
      buildRowsAux len mlen rest (tid + 1) (alloc2, need2)

/-- Allocation and need matrices, flattened row-major with `len` columns,
starting from all zeros (sync.rs:91). -/
def buildRows (len mlen : Nat) (tasks : List (Option TCBInner)) :
    List Nat × List Nat :=
  buildRowsAux len mlen tasks 0
    (List.replicate (len * tasks.length) 0, List.replicate (len * tasks.length) 0)

/-- Work initialization, mutex half (sync.rs:118): one available unit per
present unlocked mutex.  The Rust enumerated `for` loop is structural
recursion carrying the running index. -/
def buildWorkMutexAux : List (Option MutexState) → Nat → List Nat → List Nat
  | [], _, w => w
  | o :: rest, i, w =>
    let w2 := match o with
      | some m => if !m.locked then bumpAt w i else w
      | none => w
    buildWorkMutexAux rest (i + 1) w2

/-- Work initialization, semaphore half (sync.rs:125): a present semaphore
with positive `count` contributes `count` units at index `i + mlen`. -/
def buildWorkSemAux : List (Option SemState) → Nat → List Nat → List Nat
  | [], _, w => w
  | o :: rest, i, w =>
    let w2 := match o with
      | some s => if s.count > 0 then w.set i (w.getD i 0 + s.count.toNat) else w
      | none => w
    buildWorkSemAux rest (i + 1) w2

/-- `Work` vector of `deadlock_detect` (sync.rs:96,118,125). -/
def buildWork (mutex_list : List (Option MutexState))
    (semaphore_list : List (Option SemState)) (len : Nat) : List Nat :=
  buildWorkSemAux semaphore_list mutex_list.length
    (buildWorkMutexAux mutex_list 0 (List.replicate len 0))

/-- The eligibility test of the inner loop (sync.rs:141): the whole `Need`
row of task `tid` is elementwise `≤ Work`. -/
def rowLeWork (len : Nat) (need work : List Nat) (tid : Nat) : Bool :=
  (List.range len).all (fun j => decide (need.getD (tid * len + j) 0 ≤ work.getD j 0))

/-- `finish.iter().enumerate().find(..)` (sync.rs:137): the first unfinished
task whose need row fits in `Work`. -/
def findEligible (len : Nat) (need work : List Nat) (finish : List Bool) : Option Nat :=
  ((finish.enum).find? (fun p => !p.2 && rowLeWork len need work p.1)).map (fun p => p.1)

/-- `for j in 0..len { work[j] += allocation[tid*len+j] }` (sync.rs:151). -/
def addRowLoop (len : Nat) (work alloc : List Nat) (tid : Nat) : List Nat :=
  (List.range len).foldl (fun w j => w.set j (w.getD j 0 + alloc.getD (tid * len + j) 0)) work

/-- The `loop` of `deadlock_detect` (sync.rs:136): repeatedly finish the
first eligible task and release its allocation into `Work`.  Each iteration
turns one `false` into `true`, so `finish.length` steps of fuel reach the
fixpoint the Rust loop terminates in. -/
def bankersLoop (len : Nat) (need alloc : List Nat) :
    Nat → List Nat → List Bool → List Bool
  | 0, _, finish => finish
  | fuel + 1, work, finish =>
    match findEligible len need work finish with
    | none => finish
    | some tid =>
      bankersLoop len need alloc fuel (addRowLoop len work alloc tid) (finish.set tid true)

/-- `deadlock_detect` (sync.rs:82): returns `true` when the hypothetical
request `(flag, id)` by task `gettid` is unsafe (some task stays
unfinished). -/
def deadlock_detect (tasks : List (Option TCBInner))
    (mutex_list : List (Option MutexState))
    (semaphore_list : List (Option SemState))
    (flag : Bool) (id : Nat) (gettid : Nat) : Bool :=
  let len := mutex_list.length + semaphore_list.length
  let rows := buildRows len mutex_list.length tasks
  let need := bumpAt rows.2 (fetch_id mutex_list.length flag id + len * gettid)
  let work := buildWork mutex_list semaphore_list len
  let finish := bankersLoop len need rows.1 tasks.length work
    (List.replicate tasks.length false)
  finish.contains false

/-! ### Syscall layer (sync.rs) -/

/-- Observable control-flow events of one sync syscall, used to state when
the detector runs and when a primitive operation is actually invoked. -/
inductive Event
  | detect
  | lockCalled (id : Nat)
  | downCalled (id : Nat)
  | waitCalled (cid mid : Nat)
deriving DecidableEq, Repr

/-- Replace the current task's inner state (no-op on an empty slot). -/
def updateTask (ps : ProcessState) (f : TCBInner → TCBInner) : ProcessState :=
  let slot := match ps.tasks.getD ps.current_tid none with
    | some t => some (f t)
    | none => none
  { ps with tasks := ps.tasks.set ps.current_tid slot }

/-- `set_need_resource` (sync.rs:63): `assert!(need.replace(..).is_none())`;
`none` models the fatal assertion (or a missing current task). -/
def set_need_resource (ps : ProcessState) (flag : Bool) (id : Nat) :
    Option ProcessState :=
  match ps.tasks.getD ps.current_tid none with
  | none => none
  | some t =>
    match t.need with
    | some _ => none
    | none => some (updateTask ps (fun t0 => { t0 with need := some (flag, id) }))

/-- `Vec::swap_remove(i)`: overwrite index `i` with the last element and pop
it (call sites keep `i` in bounds). -/
def swapRemove {α : Type} (l : List α) (i : Nat) : List α :=
  match l.getLast? with
  | none => l
  | some x => (l.set i x).dropLast

/-- `mark_resource_released` (sync.rs:69): drop the first matching
allocation entry of the current task via `swap_remove`; absence is silently
tolerated.  `none` models a missing current task. -/
def mark_resource_released (ps : ProcessState) (flag : Bool) (id : Nat) :
    Option ProcessState :=
  match ps.tasks.getD ps.current_tid none with
  | none => none
  | some t =>
    match t.allocation.findIdx? (fun r => r.1 == flag && r.2 == id) with
    | some pos =>
      some (updateTask ps (fun t0 => { t0 with allocation := swapRemove t0.allocation pos }))
    | none => some ps

/-- Modelled from the spec: once a resource is granted, the allocation is
recorded implicitly and the task is no longer requesting (§4.1, §3). -/
def grantToCurrent (ps : ProcessState) (flag : Bool) (id : Nat) : ProcessState :=
  updateTask ps (fun t => { t with allocation := t.allocation ++ [(flag, id)], need := none })

/-- Modelled from the spec: `Mutex::lock` (§4.2).  A free mutex is acquired
(and granted to the caller); a held blocking mutex enqueues the caller; a
held spin mutex busy-waits, repeatedly yielding, leaving the state as is. -/
def mutexLockOp (ps : ProcessState) (mid : Nat) : ProcessState :=
  match ps.mutex_list.getD mid none with
  | none => ps
  | some m =>
    if !m.locked then
      grantToCurrent
        { ps with mutex_list := ps.mutex_list.set mid (some { m with locked := true }) }
        false mid
    else
      match m.kind with
      | .blocking =>
        let m2 := some { m with wait_queue := m.wait_queue ++ [ps.current_tid] }
        { ps with mutex_list := ps.mutex_list.set mid m2 }
      | .spin => ps

/-- Modelled from the spec: `Mutex::unlock` (§4.2).  With a non-empty wait
queue ownership transfers directly to the dequeued task (held flag stays
set); otherwise the held flag is cleared. -/
def mutexUnlockOp (ps : ProcessState) (mid : Nat) : ProcessState :=
  match ps.mutex_list.getD mid none with
  | none => ps
  | some m =>
    match m.wait_queue with
    | [] => { ps with mutex_list := ps.mutex_list.set mid (some { m with locked := false }) }
    | t :: rest =>
      let m2 := some { m with wait_queue := rest }
      let ps2 := { ps with mutex_list := ps.mutex_list.set mid m2 }
      let slot := match ps2.tasks.getD t none with
        | some tcb => some { tcb with allocation := tcb.allocation ++ [(false, mid)],
                                      need := none }
        | none => none
      { ps2 with tasks := ps2.tasks.set t slot }

/-- Modelled from the spec: `Semaphore::down` (§4.2).  If `count > 0`,
decrement and grant; else block the caller on the wait queue. -/
def semDownOp (ps : ProcessState) (sid : Nat) : ProcessState :=
  match ps.semaphore_list.getD sid none with
  | none => ps
  | some s =>
    if s.count > 0 then
      let s2 := some { s with count := s.count - 1 }
      grantToCurrent { ps with semaphore_list := ps.semaphore_list.set sid s2 } true sid
    else
      let s2 := some { s with wait_queue := s.wait_queue ++ [ps.current_tid] }
      { ps with semaphore_list := ps.semaphore_list.set sid s2 }

/-- Modelled from the spec: `Condvar::wait(mutex)` (§4.2) — unlock the
associated mutex (with direct-handoff semantics) and enqueue the caller. -/
def condvarWaitOp (ps : ProcessState) (cid mid : Nat) : ProcessState :=
  let ps1 := mutexUnlockOp ps mid
  match ps1.condvar_list.getD cid none with
  | none => ps1
  | some c =>
    let c2 := some { c with wait_queue := c.wait_queue ++ [ps1.current_tid] }
    { ps1 with condvar_list := ps1.condvar_list.set cid c2 }

/-- The tail of `sys_mutex_lock` after the detector gate (sync.rs:187):
unwrap the mutex slot, record the pending need, then call `lock()`. -/
def mutexLockTail (ps : ProcessState) (mid : Nat) :
    List Event × Option (Int × ProcessState) :=
  match ps.mutex_list.getD mid none with
  | none => ([], none)
  | some _ =>
    match set_need_resource ps false mid with
    | none => ([], none)
    | some ps1 => ([Event.lockCalled mid], some (0, mutexLockOp ps1 mid))

/-- `sys_mutex_lock` (sync.rs:162).  The event list records whether the
detector ran and whether `lock()` was invoked; `none` models a panic. -/
def sysMutexLock (ps : ProcessState) (mid : Nat) :
    List Event × Option (Int × ProcessState) :=
  if ps.dead_lock_detect then
    if deadlock_detect ps.tasks ps.mutex_list ps.semaphore_list false mid ps.current_tid then
      ([Event.detect], some (-0xDEAD, ps))
    else
      let r := mutexLockTail ps mid
      (Event.detect :: r.1, r.2)
  else
    mutexLockTail ps mid

/-- The tail of `sys_semaphore_down` after the detector gate (sync.rs:295). -/
def semDownTail (ps : ProcessState) (sid : Nat) :
    List Event × Option (Int × ProcessState) :=
  match ps.semaphore_list.getD sid none with
  | none => ([], none)
  | some _ =>
    match set_need_resource ps true sid with
    | none => ([], none)
    | some ps1 => ([Event.downCalled sid], some (0, semDownOp ps1 sid))

/-- `sys_semaphore_down` (sync.rs:270). -/
def sysSemaphoreDown (ps : ProcessState) (sid : Nat) :
    List Event × Option (Int × ProcessState) :=
  if ps.dead_lock_detect then
    if deadlock_detect ps.tasks ps.mutex_list ps.semaphore_list true sid ps.current_tid then
      ([Event.detect], some (-0xDEAD, ps))
    else
      let r := semDownTail ps sid
      (Event.detect :: r.1, r.2)
  else
    semDownTail ps sid

/-- `sys_condvar_wait` (sync.rs:354): unwrap both slots, release the mutex
from the ledger, record it as the pending need, then `condvar.wait`. -/
def sysCondvarWait (ps : ProcessState) (cid mid : Nat) :
    List Event × Option (Int × ProcessState) :=
  match ps.condvar_list.getD cid none with
  | none => ([], none)
  | some _ =>
    match ps.mutex_list.getD mid none with
    | none => ([], none)
    | some _ =>
      match mark_resource_released ps false mid with
      | none => ([], none)
      | some ps1 =>
        match set_need_resource ps1 false mid with
        | none => ([], none)
        | some ps2 => ([Event.waitCalled cid mid], some (0, condvarWaitOp ps2 cid mid))

/-- The lowest-free-slot allocator shared by `sys_mutex_create`
(sync.rs:48), `sys_semaphore_create` (sync.rs:231) and
`sys_condvar_create` (sync.rs:316): reuse the first `None` slot, else push. -/
def allocSlot {α : Type} (l : List (Option α)) (x : α) : List (Option α) × Nat :=
  match ((l.enum).find? (fun p => p.2.isNone)).map (fun p => p.1) with
  | some i => (l.set i (some x), i)
  | none => (l ++ [some x], l.length)

/-- `sys_mutex_create` (sync.rs:29): spin unless `blocking`. -/
def sysMutexCreate (ps : ProcessState) (blocking : Bool) : Int × ProcessState :=
  let m : MutexState :=
    { kind := if !blocking then .spin else .blocking, locked := false, wait_queue := [] }
  let r := allocSlot ps.mutex_list m
  (Int.ofNat r.2, { ps with mutex_list := r.1 })

/-- `sys_semaphore_create` (sync.rs:217). -/
def sysSemaphoreCreate (ps : ProcessState) (res_count : Nat) : Int × ProcessState :=
  let r := allocSlot ps.semaphore_list { count := Int.ofNat res_count, wait_queue := [] }
  (Int.ofNat r.2, { ps with semaphore_list := r.1 })

/-- `sys_condvar_create` (sync.rs:302). -/
def sysCondvarCreate (ps : ProcessState) : Int × ProcessState :=
  let r := allocSlot ps.condvar_list ({ wait_queue := [] } : CondvarState)
  (Int.ofNat r.2, { ps with condvar_list := r.1 })

/-! ### Spec-side Banker's relaxation (for checking `deadlock_detect`) -/

/-- Units of resource `j` (concatenated index) held in one task slot. -/
def allocContrib (mlen : Nat) (o : Option TCBInner) (j : Nat) : Nat :=
  match o with
  | none => 0
  | some task => task.allocation.countP (fun r => fetch_id mlen r.1 r.2 == j)

/-- The pending-need indicator of one task slot at resource `j`. -/
def needContrib (mlen : Nat) (o : Option TCBInner) (j : Nat) : Nat :=
  match o with
  | none => 0
  | some task =>
    match task.need with
    | some nd => if fetch_id mlen nd.1 nd.2 == j then 1 else 0
    | none => 0

/-- Spec step 1: `Allocation[task][resource]` = units of that resource the
task currently holds. -/
def specAlloc (tasks : List (Option TCBInner)) (mlen : Nat) (t j : Nat) : Nat :=
  allocContrib mlen (tasks.getD t none) j

/-- Spec step 2: `Need[task][resource]` = the pending-need indicator plus
the hypothetical request folded into the requesting task's row. -/
def specNeed (tasks : List (Option TCBInner)) (mlen : Nat) (flag : Bool)
    (id reqTid : Nat) (t j : Nat) : Nat :=
  needContrib mlen (tasks.getD t none) j +
    (if t = reqTid ∧ fetch_id mlen flag id = j then 1 else 0)

/-- One mutex slot's contribution to `Work`: 1 if present and unlocked. -/
def mutexContrib (o : Option MutexState) : Nat :=
  match o with
  | some m => if m.locked then 0 else 1
  | none => 0

/-- One semaphore slot's contribution to `Work`: its live count if positive. -/
def semContrib (o : Option SemState) : Nat :=
  match o with
  | some s => if s.count > 0 then s.count.toNat else 0
  | none => 0

/-- Spec step 3: `Work[resource]` = currently available units. -/
def specWork (ml : List (Option MutexState)) (sl : List (Option SemState))
    (j : Nat) : Nat :=
  if j < ml.length then mutexContrib (ml.getD j none)
  else semContrib (sl.getD (j - ml.length) none)

/-- Spec step 4, one admissible completion order: each listed task in turn
has its whole need row within the current work vector, which then absorbs
the task's allocation row ("repeatedly find ANY task ..."). -/
def SValidSeq (len : Nat) (needF allocF : Nat → Nat → Nat) :
    (Nat → Nat) → List Nat → Prop
  | _, [] => True
  | w, t :: σ => (∀ j, j < len → needF t j ≤ w j) ∧
      SValidSeq len needF allocF (fun j => w j + allocF t j) σ

/-- The list-level eligibility `Need` row `≤` `Work`, on the flattened
matrices the code manipulates (the `Prop` of `rowLeWork`). -/
def rowLe (len : Nat) (need work : List Nat) (tid : Nat) : Prop :=
  ∀ j, j < len → need.getD (tid * len + j) 0 ≤ work.getD j 0

/-- List-level admissible completion order. -/
def ValidSeqL (len : Nat) (need alloc : List Nat) : List Nat → List Nat → Prop
  | _, [] => True
  | work, t :: σ => rowLe len need work t ∧
      ValidSeqL len need alloc (addRowLoop len work alloc t) σ

/-- Every ledger entry's resource id is within its table (otherwise the
Rust matrix indexing would be out of bounds and panic). -/
def wfState (tasks : List (Option TCBInner)) (mlen slen : Nat) : Bool :=
  tasks.all (fun o =>
    match o with
    | none => true
    | some t =>
      t.allocation.all (fun r => decide (r.2 < (if r.1 then slen else mlen))) &&
      (match t.need with
       | some nd => decide (nd.2 < (if nd.1 then slen else mlen))
       | none => true))

/-! ### Concrete states used by witnesses and counterexamples -/

/-- Crossed deadlock: task 0 holds mutex 0, task 1 holds semaphore 0 and
needs mutex 0; the mutex is locked, the semaphore has no available unit,
detection is on, task 0 is current. -/
def wsCross : ProcessState :=
  ⟨[some ⟨[(false, 0)], none⟩, some ⟨[(true, 0)], some (false, 0)⟩],
   [some ⟨MutexKind.spin, true, []⟩], [some ⟨0, []⟩], [], true, 0⟩

/-- Detection on, one free mutex, one idle task. -/
def wsAvail : ProcessState :=
  ⟨[some ⟨[], none⟩], [some ⟨MutexKind.spin, false, []⟩], [], [], true, 0⟩

/-- Detection off, one free mutex, one idle task. -/
def wsOff : ProcessState :=
  ⟨[some ⟨[], none⟩], [some ⟨MutexKind.spin, false, []⟩], [], [], false, 0⟩

/-- One idle task and each primitive table holding one live entry, used to
exercise the ledger operations. -/
def wsLedger : ProcessState :=
  ⟨[some ⟨[(false, 0)], none⟩], [some ⟨MutexKind.blocking, true, []⟩], [], [some ⟨[]⟩], false, 0⟩

/-- A mutex table with a retired hole at index 1. -/
def wsSlots : ProcessState :=
  ⟨[some ⟨[], none⟩],
   [some ⟨MutexKind.spin, false, []⟩, none, some ⟨MutexKind.spin, false, []⟩],
   [], [], false, 0⟩

end RCore

namespace RCore

example : task_mmap ⟨[], []⟩ 0 4096 1 = (0, ⟨[⟨0, 1, 18⟩], []⟩) := by decide
example : task_mmap ⟨[], []⟩ 5 4096 1 = (-1, ⟨[], []⟩) := by decide
example : task_mmap ⟨[], []⟩ 0 4096 9 = (-1, ⟨[], []⟩) := by decide
example : task_mmap ⟨[], []⟩ 0 4096 8 = (0, ⟨[⟨0, 1, 16⟩], []⟩) := by decide
example : task_munmap ⟨[], []⟩ 0 4096 = (0, ⟨[], []⟩) := by decide
example : task_munmap ⟨[⟨0, 1, 18⟩], []⟩ 0 4096 = (0, ⟨[], []⟩) := by decide
example : task_munmap ⟨[⟨0, 1, 18⟩], [5]⟩ 0 4096 = (0, ⟨[], [5]⟩) := by decide
example : task_munmap ⟨[], [0]⟩ 0 4096 = (-1, ⟨[], [0]⟩) := by decide

-- crossed deadlock: t0 holds m0 and asks s0, t1 holds s0 and needs m0
example :
    deadlock_detect
      [some ⟨[(false, 0)], none⟩, some ⟨[(true, 0)], some (false, 0)⟩]
      [some ⟨.spin, true, []⟩] [some ⟨0, []⟩] true 0 0 = true := by decide

-- same ledgers but the semaphore has one available unit: safe
example :
    deadlock_detect
      [some ⟨[(false, 0)], none⟩, some ⟨[(true, 0)], some (false, 0)⟩]
      [some ⟨.spin, true, []⟩] [some ⟨1, []⟩] true 0 0 = false := by decide

-- free mutex, empty ledgers: safe
example :
    deadlock_detect [some ⟨[], none⟩] [some ⟨.spin, false, []⟩] [] false 0 0 = false := by
  decide

example :
    sysMutexLock
      { tasks := [some ⟨[], none⟩], mutex_list := [some ⟨.spin, false, []⟩],
        semaphore_list := [], condvar_list := [], dead_lock_detect := true,
        current_tid := 0 } 0 =
    ([Event.detect, Event.lockCalled 0],
     some (0, { tasks := [some ⟨[(false, 0)], none⟩],
                mutex_list := [some ⟨.spin, true, []⟩], semaphore_list := [],
                condvar_list := [], dead_lock_detect := true, current_tid := 0 })) := by
  decide

/-! ## Helper lemmas -/

/-- The mmap scan predicate is exactly "the page is mapped". -/
theorem translate_scan_mapped (ms : MemorySet) (v : Nat) :
    (match translateVpn ms v with
     | some pte => pte
     | none => false) = mappedVpn ms v := by
  unfold translateVpn
  split_ifs with h1 h2
  · simp [h1]
  · simp only [Bool.not_eq_true] at h1
    simp [h1]
  · simp only [Bool.not_eq_true] at h1
    simp [h1]

/-- Membership in the iterated page range. -/
theorem mem_vpnRange (s e v : Nat) : v ∈ vpnRange s e ↔ s ≤ v ∧ v < e := by
  unfold vpnRange
  simp only [List.mem_map, List.mem_range]
  constructor
  · rintro ⟨i, hi, rfl⟩
    omega
  · rintro ⟨h1, h2⟩
    exact ⟨v - s, by omega, by omega⟩

/-- Removing by start page undoes an append when no earlier area matches. -/
theorem removeArea_append (l : List Area) (a : Area) (v : Nat)
    (h : ∀ b ∈ l, b.start_vpn ≠ v) (ha : a.start_vpn = v) :
    removeAreaWithStartVpn (l ++ [a]) v = l := by
  induction l with
  | nil => simp [removeAreaWithStartVpn, ha]
  | cons b rest ih =>
    have hb : b.start_vpn ≠ v := h b (by simp)
    have ih2 := ih (fun c hc => h c (by simp [hc]))
    simp only [List.cons_append, removeAreaWithStartVpn, if_neg hb, List.append_eq]
    rw [ih2]

/-- A freshly inserted area maps every page of its range. -/
theorem mapped_insert (ms : MemorySet) (start_va end_va perm v : Nat)
    (h : vaFloor start_va ≤ v ∧ v < vaCeil end_va) :
    mappedVpn (insert_framed_area ms start_va end_va perm) v = true := by
  unfold insert_framed_area mappedVpn
  simp only [List.any_append, Bool.or_eq_true, List.any_cons, List.any_nil]
  right
  simp [Area.containsVpn, h.1, h.2]

/-! ## Claim theorems -/

/-- C4: the claim says mmap must fail, before touching the address space,
whenever the permission bit field does not encode at least one of
read/write/execute or does not fit the expected 3-bit width.  The code
checks `port > 0b1000 || port == 0`, so `port = 8` — which has none of the
r/w/x bits 0..2 set and does not fit 3 bits — passes validation: the scan
runs and a region with the bare user bit (permission 16 = U) is inserted,
and the syscall returns 0 instead of a negative status. -/
theorem c4_mmap_port8_bug :
    (8 : Nat) &&& 7 = 0 ∧
    task_mmap ⟨[], []⟩ 0 4096 8 = (0, ⟨[⟨0, 1, 16⟩], []⟩) := by decide

/-- C5: once alignment and permission validation pass, the mmap scan fails
with `-1` and no mutation when any page of `[floor start, ceil (start+len))`
is already mapped, and when every page is unmapped it appends exactly one
freshly backed area over that range whose permission is the requested bits
shifted into place together with the implicit user bit, returning 0. -/
theorem c5_mmap_all_or_nothing (ms : MemorySet) (start len port : Nat)
    (ha : alignedVA start = true) (hp1 : port ≤ 8) (hp2 : port ≠ 0) :
    ((vpnRange (vaFloor start) (vaCeil (start + len))).any (fun v => mappedVpn ms v) = true →
      task_mmap ms start len port = (-1, ms)) ∧
    ((vpnRange (vaFloor start) (vaCeil (start + len))).all (fun v => !mappedVpn ms v) = true →
      task_mmap ms start len port =
        (0, { ms with areas :=
          ms.areas ++ [⟨vaFloor start, vaCeil (start + len), (port <<< 1) ||| PERM_U⟩] })) := by
  have hport : (decide (port > 8) || (port == 0)) = false := by
    have h1 : ¬ port > 8 := Nat.not_lt.mpr hp1
    simp [h1, hp2]
  have hscan : ∀ r : List Nat,
      (r.any (fun vpn =>
        match translateVpn ms vpn with
        | some pte => pte
        | none => false)) = r.any (fun v => mappedVpn ms v) := by
    intro r
    induction r with
    | nil => rfl
    | cons x xs ih => simp only [List.any_cons, ih, translate_scan_mapped]
  constructor
  · intro hany
    unfold task_mmap
    simp only [ha, Bool.not_true, Bool.false_eq_true, if_false]
    simp only [gt_iff_lt, hport, Bool.false_eq_true, if_false]
    unfold map_task_memory
    rw [hscan, hany]
    simp
  · intro hall
    have hnone : (vpnRange (vaFloor start) (vaCeil (start + len))).any
        (fun v => mappedVpn ms v) = false := by
      rw [List.any_eq_false]
      intro v hv
      have := (List.all_eq_true.mp hall) v hv
      simpa using this
    unfold task_mmap
    simp only [ha, Bool.not_true, Bool.false_eq_true, if_false]
    simp only [gt_iff_lt, hport, Bool.false_eq_true, if_false]
    unfold map_task_memory
    rw [hscan, hnone]
    simp [insert_framed_area]

/-- C5 witness: a concrete validated request on an empty address space. -/
theorem c5_witness :
    alignedVA 0 = true ∧ (1 : Nat) ≤ 8 ∧ (1 : Nat) ≠ 0 ∧
    (((vpnRange (vaFloor 0) (vaCeil (0 + 4096))).any
        (fun v => mappedVpn ⟨[], []⟩ v) = true →
      task_mmap ⟨[], []⟩ 0 4096 1 = (-1, ⟨[], []⟩)) ∧
     ((vpnRange (vaFloor 0) (vaCeil (0 + 4096))).all
        (fun v => !mappedVpn ⟨[], []⟩ v) = true →
      task_mmap ⟨[], []⟩ 0 4096 1 =
        (0, { areas := [] ++ [⟨vaFloor 0, vaCeil (0 + 4096), (1 <<< 1) ||| PERM_U⟩],
              shadow := [] }))) :=
  ⟨by decide, by decide, by decide,
   c5_mmap_all_or_nothing ⟨[], []⟩ 0 4096 1 (by decide) (by decide) (by decide)⟩

/-- C6: the claim says munmap must fail whenever any page of the range is
currently unmapped.  The scan only rejects pages whose page-table entry is
present but invalid; a page with no entry at all (`translate` returns
`None`, e.g. any page of an empty address space) passes silently, so the
operation reports success 0 instead of a negative status. -/
theorem c6_munmap_missing_page_bug :
    translateVpn ⟨[], []⟩ 0 = none ∧
    task_munmap ⟨[], []⟩ 0 4096 = (0, ⟨[], []⟩) := by decide

/-- C7 counterexample: with a (necessarily empty) pre-existing area whose
start page equals the request's start page, the mmap succeeds, the mirrored
munmap also returns 0, but it removes the old empty area instead of the new
one: the mapped-page set afterwards still contains page 0, which was not
mapped before, so the round trip fails. -/
theorem c7_counterexample :
    (task_mmap ⟨[⟨0, 0, 18⟩], []⟩ 0 4096 1).1 = 0 ∧
    (task_munmap (task_mmap ⟨[⟨0, 0, 18⟩], []⟩ 0 4096 1).2 0 4096).1 = 0 ∧
    mappedVpn (task_munmap (task_mmap ⟨[⟨0, 0, 18⟩], []⟩ 0 4096 1).2 0 4096).2 0 = true ∧
    mappedVpn ⟨[⟨0, 0, 18⟩], []⟩ 0 = false := by decide

/-- C7 (amended): provided no pre-existing area starts at the request's
start page (in a well-formed address space only an empty area could, since
mmap succeeded), a successful mmap followed by the mirrored munmap returns 0
and restores the address space exactly, hence its mapped-page set. -/
theorem c7_roundtrip (ms : MemorySet) (start len port : Nat) (ms2 : MemorySet)
    (hno : ∀ a ∈ ms.areas, a.start_vpn ≠ vaFloor start)
    (h : task_mmap ms start len port = (0, ms2)) :
    task_munmap ms2 start len = (0, ms) := by
  unfold task_mmap at h
  by_cases hA : alignedVA start = true
  case neg =>
    simp only [Bool.not_eq_true] at hA
    simp [hA] at h
  case pos =>
  simp only [hA, Bool.not_true, Bool.false_eq_true, if_false] at h
  by_cases hP : (port > 8 || port == 0) = true
  case pos =>
    simp only [gt_iff_lt] at hP
    simp [hP] at h
  case neg =>
  simp only [Bool.not_eq_true] at hP
  simp only [gt_iff_lt, hP, Bool.false_eq_true, if_false] at h
  unfold map_task_memory at h
  by_cases hS : ((vpnRange (vaFloor start) (vaCeil (start + len))).any (fun vpn =>
      match translateVpn ms vpn with
      | some pte => pte
      | none => false)) = true
  case pos =>
    rw [if_pos hS] at h
    have h1 : (-1 : Int) = 0 := congrArg Prod.fst h
    exact absurd h1 (by decide)
  case neg =>
  rw [if_neg hS] at h
  have hms2 : ms2 = insert_framed_area ms start (start + len) ((port <<< 1) ||| PERM_U) := by
    have h2 : insert_framed_area ms start (start + len) ((port <<< 1) ||| PERM_U) = ms2 :=
      congrArg Prod.snd h
    exact h2.symm
  subst hms2
  unfold task_munmap
  simp only [hA, Bool.not_true, Bool.false_eq_true, if_false]
  unfold unmap_task_memory
  have hscan : ((vpnRange (vaFloor start) (vaCeil (start + len))).any (fun vpn =>
      match translateVpn (insert_framed_area ms start (start + len) ((port <<< 1) ||| PERM_U)) vpn with
      | some pte => !pte
      | none => false)) = false := by
    rw [List.any_eq_false]
    intro v hv
    have hm : mappedVpn (insert_framed_area ms start (start + len) ((port <<< 1) ||| PERM_U)) v
        = true :=
      mapped_insert ms start (start + len) _ v ((mem_vpnRange _ _ v).mp hv)
    unfold translateVpn
    simp [hm]
  rw [if_neg (by rw [hscan]; exact Bool.false_ne_true)]
  have hrm : removeAreaWithStartVpn
      (insert_framed_area ms start (start + len) ((port <<< 1) ||| PERM_U)).areas
      (vaFloor start) = ms.areas := by
    unfold insert_framed_area
    exact removeArea_append ms.areas _ (vaFloor start) hno rfl
  rw [hrm]
  rfl

/-- `allocSlot` through `findIdx?`, for reasoning about slot reuse. -/
theorem allocSlot_eq_findIdx {α : Type} (l : List (Option α)) (x : α) :
    allocSlot l x =
      match l.findIdx? (fun o => o.isNone) with
      | some i => (l.set i (some x), i)
      | none => (l ++ [some x], l.length) := by
  unfold allocSlot
  rw [List.findIdx?_eq_fst_find?_enum]

/-- With a least `None` slot at `i`, `allocSlot` fills it and returns `i`. -/
theorem allocSlot_least {α : Type} (l : List (Option α)) (x : α) (i : Nat)
    (h1 : l[i]? = some none)
    (h2 : ∀ j, j < i → ∀ o, l[j]? = some o → o ≠ none) :
    allocSlot l x = (l.set i (some x), i) := by
  rw [allocSlot_eq_findIdx]
  have hi : i < l.length := by
    by_contra hlt
    rw [List.getElem?_eq_none (Nat.le_of_not_lt hlt)] at h1
    exact absurd h1 (by simp)
  have hf : l.findIdx? (fun o => o.isNone) = some i := by
    rw [List.findIdx?_eq_some_iff_getElem]
    refine ⟨hi, ?_, ?_⟩
    · have hval : l[i] = none := by
        have h3 := List.getElem?_eq_getElem hi
        rw [h3] at h1
        exact Option.some.inj h1
      simp [hval]
    · intro j hj
      have hjl : j < l.length := Nat.lt_trans hj hi
      have h4 := h2 j hj l[j] (List.getElem?_eq_getElem hjl)
      simp only [Bool.not_eq_true, Option.isNone_iff_eq_none] at h4 ⊢
      simpa using h4
  rw [hf]

/-- With no `None` slot, `allocSlot` appends and returns the old length. -/
theorem allocSlot_full {α : Type} (l : List (Option α)) (x : α)
    (h : ∀ o ∈ l, o ≠ none) :
    allocSlot l x = (l ++ [some x], l.length) := by
  rw [allocSlot_eq_findIdx]
  have hf : l.findIdx? (fun o => o.isNone) = none := by
    rw [List.findIdx?_eq_none_iff]
    intro o ho
    cases o with
    | none => exact absurd rfl (h none ho)
    | some a => rfl
  rw [hf]

/-- C8: each create syscall stores the new primitive in the lowest-indexed
`None` slot and returns that index when a free slot exists, and otherwise
appends and returns the previous length — hence creating again after a slot
was retired to `None` yields that same id before any new index is used. -/
theorem c8_create_lowest_slot (ps : ProcessState) (blocking : Bool) (res_count i : Nat) :
    ((ps.mutex_list[i]? = some none ∧
        ∀ j, j < i → ∀ o, ps.mutex_list[j]? = some o → o ≠ none) →
      sysMutexCreate ps blocking =
        (Int.ofNat i, { ps with mutex_list := (ps.mutex_list.set i
          (some ⟨if !blocking then .spin else .blocking, false, []⟩)) })) ∧
    ((∀ o ∈ ps.mutex_list, o ≠ none) →
      sysMutexCreate ps blocking =
        (Int.ofNat ps.mutex_list.length, { ps with mutex_list := (ps.mutex_list ++
          [some ⟨if !blocking then .spin else .blocking, false, []⟩]) })) ∧
    ((ps.semaphore_list[i]? = some none ∧
        ∀ j, j < i → ∀ o, ps.semaphore_list[j]? = some o → o ≠ none) →
      sysSemaphoreCreate ps res_count =
        (Int.ofNat i, { ps with semaphore_list := (ps.semaphore_list.set i
          (some ⟨Int.ofNat res_count, []⟩)) })) ∧
    ((∀ o ∈ ps.semaphore_list, o ≠ none) →
      sysSemaphoreCreate ps res_count =
        (Int.ofNat ps.semaphore_list.length, { ps with semaphore_list := (ps.semaphore_list ++
          [some ⟨Int.ofNat res_count, []⟩]) })) ∧
    ((ps.condvar_list[i]? = some none ∧
        ∀ j, j < i → ∀ o, ps.condvar_list[j]? = some o → o ≠ none) →
      sysCondvarCreate ps =
        (Int.ofNat i, { ps with condvar_list := (ps.condvar_list.set i (some ⟨[]⟩)) })) ∧
    ((∀ o ∈ ps.condvar_list, o ≠ none) →
      sysCondvarCreate ps =
        (Int.ofNat ps.condvar_list.length,
         { ps with condvar_list := (ps.condvar_list ++ [some ⟨[]⟩]) })) := by
  refine ⟨fun h => ?_, fun h => ?_, fun h => ?_, fun h => ?_, fun h => ?_, fun h => ?_⟩
  · simp only [sysMutexCreate]
    rw [allocSlot_least ps.mutex_list _ i h.1 h.2]
  · simp only [sysMutexCreate]
    rw [allocSlot_full ps.mutex_list _ h]
  · simp only [sysSemaphoreCreate]
    rw [allocSlot_least ps.semaphore_list _ i h.1 h.2]
  · simp only [sysSemaphoreCreate]
    rw [allocSlot_full ps.semaphore_list _ h]
  · simp only [sysCondvarCreate]
    rw [allocSlot_least ps.condvar_list _ i h.1 h.2]
  · simp only [sysCondvarCreate]
    rw [allocSlot_full ps.condvar_list _ h]

/-- C8 witness: a table `[some, none, some]` gets its hole at index 1
reused by the next create. -/
theorem c8_witness :
    (wsSlots.mutex_list[1]? = some none ∧
      ∀ j, j < 1 → ∀ o, wsSlots.mutex_list[j]? = some o → o ≠ none) ∧
    sysMutexCreate wsSlots true =
      (Int.ofNat 1, { wsSlots with mutex_list := (wsSlots.mutex_list.set 1
        (some ⟨if !true then .spin else .blocking, false, []⟩)) }) := by
  have h2 : ∀ j, j < 1 → ∀ o, wsSlots.mutex_list[j]? = some o → o ≠ none := by
    intro j hj o ho
    have hj0 : j = 0 := Nat.lt_one_iff.mp hj
    subst hj0
    have h3 : (some (some (⟨MutexKind.spin, false, []⟩ : MutexState)) :
        Option (Option MutexState)) = some o := ho
    cases h3
    simp
  exact ⟨⟨by decide, h2⟩, (c8_create_lowest_slot wsSlots true 0 1).1 ⟨by decide, h2⟩⟩

/-- Two distinct positions holding the same value force a count of at
least 2 (ordered auxiliary). -/
theorem two_le_count_aux {α : Type} [BEq α] [LawfulBEq α] (l : List α) :
    ∀ (x : α) (i j : Nat) (hi : i < l.length) (hj : j < l.length),
      i < j → l[i] = x → l[j] = x → 2 ≤ l.count x := by
  induction l with
  | nil => intro x i j hi; simp at hi
  | cons a rest ih =>
    intro x i j hi hj hij hxi hxj
    match i, j with
    | 0, j + 1 =>
      have hxa : a = x := by simpa using hxi
      have hj2 : j < rest.length := by simpa using hj
      have hmem : x ∈ rest := by
        have hr : rest[j] = x := by simpa using hxj
        rw [← hr]
        exact List.getElem_mem hj2
      subst hxa
      rw [List.count_cons_self]
      have hpos := List.count_pos_iff.mpr hmem
      omega
    | i + 1, j + 1 =>
      have hi2 : i < rest.length := by simpa using hi
      have hj2 : j < rest.length := by simpa using hj
      have h2 := ih x i j hi2 hj2 (by omega) (by simpa using hxi) (by simpa using hxj)
      have h3 : rest.count x ≤ (a :: rest).count x :=
        List.Sublist.count_le (List.sublist_cons_self a rest) x
      omega

/-- Two distinct positions holding the same value force a count ≥ 2. -/
theorem two_le_count_of_two {α : Type} [BEq α] [LawfulBEq α] (l : List α) (x : α) (i j : Nat)
    (hi : i < l.length) (hj : j < l.length) (hne : i ≠ j)
    (hxi : l[i] = x) (hxj : l[j] = x) : 2 ≤ l.count x := by
  rcases Nat.lt_or_ge i j with h | h
  · exact two_le_count_aux l x i j hi hj h hxi hxj
  · exact two_le_count_aux l x j i hj hi (by omega) hxj hxi

/-- `swap_remove` of the unique occurrence removes the value entirely. -/
theorem not_mem_swapRemove {α : Type} [BEq α] [LawfulBEq α] (l : List α) (x : α) (pos : Nat)
    (hpos : pos < l.length) (hx : l[pos] = x) (hc : l.count x ≤ 1) :
    x ∉ swapRemove l pos := by
  intro hmem
  unfold swapRemove at hmem
  cases hlast : l.getLast? with
  | none =>
    rw [List.getLast?_eq_none_iff] at hlast
    subst hlast
    simp at hpos
  | some last =>
    rw [hlast] at hmem
    have hlastlt : l.length - 1 < l.length := by omega
    have hlasteq : l[l.length - 1] = last := by
      have h1 := List.getLast?_eq_getElem? l
      rw [hlast, List.getElem?_eq_getElem hlastlt] at h1
      exact (Option.some.inj h1).symm
    obtain ⟨j, hjlt, hjx⟩ := List.mem_iff_getElem.mp hmem
    have hjlen : j < l.length - 1 := by simpa using hjlt
    rw [List.getElem_dropLast] at hjx
    by_cases hjp : pos = j
    · subst hjp
      rw [List.getElem_set_self (by simpa using hpos)] at hjx
      have h2 := two_le_count_of_two l x pos (l.length - 1) hpos hlastlt (by omega) hx
        (by rw [hlasteq, hjx])
      omega
    · rw [List.getElem_set_ne hjp] at hjx
      have h2 := two_le_count_of_two l x pos j hpos (by omega) hjp hx hjx
      omega

/-- `getD` after `set` at the same in-bounds index. -/
theorem getD_set_self_opt {α : Type} (l : List (Option α)) (i : Nat) (x : Option α)
    (h : i < l.length) : (l.set i x).getD i none = x := by
  rw [List.getD_eq_getElem?_getD, List.getElem?_set_self h]
  rfl

/-- `getD` after `set` at a different index. -/
theorem getD_set_ne_opt {α : Type} (l : List (Option α)) (i j : Nat) (x : Option α)
    (h : i ≠ j) : (l.set i x).getD j none = l.getD j none := by
  rw [List.getD_eq_getElem?_getD, List.getD_eq_getElem?_getD, List.getElem?_set_ne h]

/-- A present slot is in bounds. -/
theorem getD_some_lt {α : Type} (l : List (Option α)) (i : Nat) (t : α)
    (h : l.getD i none = some t) : i < l.length := by
  by_contra hlt
  rw [List.getD_eq_getElem?_getD, List.getElem?_eq_none (Nat.le_of_not_lt hlt)] at h
  exact absurd h (by simp)

/-- `updateTask` rewrites exactly the current task's slot. -/
theorem updateTask_getD (ps : ProcessState) (f : TCBInner → TCBInner) (t : TCBInner)
    (ht : ps.tasks.getD ps.current_tid none = some t) :
    (updateTask ps f).tasks.getD ps.current_tid none = some (f t) := by
  have h1 : (updateTask ps f).tasks = ps.tasks.set ps.current_tid (some (f t)) := by
    unfold updateTask
    rw [ht]
  rw [h1]
  exact getD_set_self_opt _ _ _ (getD_some_lt ps.tasks ps.current_tid t ht)

/-- `mark_resource_released` succeeds for a present current task, leaves
every field but the task table intact, keeps the task's need, and — when
the task held at most one unit of the resource — its allocation no longer
contains the pair. -/
theorem mark_released_spec (ps : ProcessState) (flag : Bool) (id : Nat) (t : TCBInner)
    (ht : ps.tasks.getD ps.current_tid none = some t)
    (hdup : t.allocation.count (flag, id) ≤ 1) :
    ∃ ps1 t1, mark_resource_released ps flag id = some ps1 ∧
      ps1.tasks.getD ps.current_tid none = some t1 ∧
      ps1.mutex_list = ps.mutex_list ∧ ps1.semaphore_list = ps.semaphore_list ∧
      ps1.condvar_list = ps.condvar_list ∧ ps1.current_tid = ps.current_tid ∧
      ps1.dead_lock_detect = ps.dead_lock_detect ∧
      t1.need = t.need ∧ ¬ (flag, id) ∈ t1.allocation := by
  cases hfind : t.allocation.findIdx? (fun r => r.1 == flag && r.2 == id) with
  | none =>
    refine ⟨ps, t, ?_, ht, rfl, rfl, rfl, rfl, rfl, rfl, ?_⟩
    · unfold mark_resource_released
      rw [ht]
      dsimp only
      rw [hfind]
    · rw [List.findIdx?_eq_none_iff] at hfind
      intro hmem
      have h2 := hfind _ hmem
      simp at h2
  | some pos =>
    have hfind2 := hfind
    rw [List.findIdx?_eq_some_iff_getElem] at hfind2
    obtain ⟨hlt, hp, _⟩ := hfind2
    have hval : t.allocation[pos] = (flag, id) := by
      have hp2 := hp
      simp only [Bool.and_eq_true, beq_iff_eq] at hp2
      exact Prod.ext hp2.1 hp2.2
    refine ⟨updateTask ps (fun t0 => { t0 with allocation := swapRemove t0.allocation pos }),
      { t with allocation := swapRemove t.allocation pos }, ?_,
      updateTask_getD ps _ t ht, rfl, rfl, rfl, rfl, rfl, rfl, ?_⟩
    · unfold mark_resource_released
      rw [ht]
      dsimp only
      rw [hfind]
    · exact not_mem_swapRemove t.allocation (flag, id) pos hlt hval hdup

/-- `mutexUnlockOp` never touches a task that is not in the wait queue. -/
theorem mutexUnlockOp_tasks_getD (ps : ProcessState) (mid i : Nat)
    (hi : ∀ m, ps.mutex_list.getD mid none = some m → ¬ i ∈ m.wait_queue) :
    (mutexUnlockOp ps mid).tasks.getD i none = ps.tasks.getD i none := by
  unfold mutexUnlockOp
  cases hm : ps.mutex_list.getD mid none with
  | none => rfl
  | some m =>
    dsimp only
    cases hwq : m.wait_queue with
    | nil => rfl
    | cons w rest =>
      dsimp only
      have hwne : w ≠ i := by
        intro he
        exact hi m hm (by rw [hwq, he]; exact List.mem_cons_self i rest)
      exact getD_set_ne_opt _ _ _ _ hwne

/-- `mutexUnlockOp` leaves the condvar table alone. -/
theorem mutexUnlockOp_condvar_list (ps : ProcessState) (mid : Nat) :
    (mutexUnlockOp ps mid).condvar_list = ps.condvar_list := by
  unfold mutexUnlockOp
  cases hm : ps.mutex_list.getD mid none with
  | none => rfl
  | some m =>
    dsimp only
    cases hwq : m.wait_queue <;> rfl

/-- `condvarWaitOp` never touches a task that is not in the mutex's wait
queue (the condvar enqueue only alters the condvar table). -/
theorem condvarWaitOp_tasks_getD (ps : ProcessState) (cid mid i : Nat)
    (hi : ∀ m, ps.mutex_list.getD mid none = some m → ¬ i ∈ m.wait_queue) :
    (condvarWaitOp ps cid mid).tasks.getD i none = ps.tasks.getD i none := by
  unfold condvarWaitOp
  cases hcv : (mutexUnlockOp ps mid).condvar_list.getD cid none with
  | none =>
    dsimp only
    rw [hcv]
    exact mutexUnlockOp_tasks_getD ps mid i hi
  | some c =>
    dsimp only
    rw [hcv]
    exact mutexUnlockOp_tasks_getD ps mid i hi

/-- The post-gate tail of `sys_mutex_lock` emits no `detect` event. -/
theorem mutexLockTail_events (ps : ProcessState) (mid : Nat) :
    (mutexLockTail ps mid).1 = [] ∨ (mutexLockTail ps mid).1 = [Event.lockCalled mid] := by
  unfold mutexLockTail
  cases h1 : ps.mutex_list.getD mid none with
  | none => exact Or.inl rfl
  | some m =>
    dsimp only
    cases h2 : set_need_resource ps false mid with
    | none => exact Or.inl rfl
    | some ps1 => exact Or.inr rfl

/-- The post-gate tail of `sys_mutex_lock` only returns status 0. -/
theorem mutexLockTail_ret (ps : ProcessState) (mid : Nat) :
    ∀ r ps2, (mutexLockTail ps mid).2 = some (r, ps2) → r = 0 := by
  intro r ps2 h
  unfold mutexLockTail at h
  cases h1 : ps.mutex_list.getD mid none with
  | none => rw [h1] at h; exact absurd h (by simp)
  | some m =>
    rw [h1] at h
    dsimp only at h
    cases h2 : set_need_resource ps false mid with
    | none => rw [h2] at h; exact absurd h (by simp)
    | some ps1 =>
      rw [h2] at h
      dsimp only at h
      have h3 := Option.some.inj h
      exact (congrArg Prod.fst h3).symm

/-- The post-gate tail of `sys_semaphore_down` emits no `detect` event. -/
theorem semDownTail_events (ps : ProcessState) (sid : Nat) :
    (semDownTail ps sid).1 = [] ∨ (semDownTail ps sid).1 = [Event.downCalled sid] := by
  unfold semDownTail
  cases h1 : ps.semaphore_list.getD sid none with
  | none => exact Or.inl rfl
  | some s =>
    dsimp only
    cases h2 : set_need_resource ps true sid with
    | none => exact Or.inl rfl
    | some ps1 => exact Or.inr rfl

/-- The post-gate tail of `sys_semaphore_down` only returns status 0. -/
theorem semDownTail_ret (ps : ProcessState) (sid : Nat) :
    ∀ r ps2, (semDownTail ps sid).2 = some (r, ps2) → r = 0 := by
  intro r ps2 h
  unfold semDownTail at h
  cases h1 : ps.semaphore_list.getD sid none with
  | none => rw [h1] at h; exact absurd h (by simp)
  | some s =>
    rw [h1] at h
    dsimp only at h
    cases h2 : set_need_resource ps true sid with
    | none => rw [h2] at h; exact absurd h (by simp)
    | some ps1 =>
      rw [h2] at h
      dsimp only at h
      have h3 := Option.some.inj h
      exact (congrArg Prod.fst h3).symm

/-- C3 counterexample: with detection enabled and the requested mutex
currently available (unlocked), the detector still runs on
`sys_mutex_lock` — the claim that an available resource does not trigger
the detector is false. -/
theorem c3_counterexample :
    wsAvail.dead_lock_detect = true ∧
    (match wsAvail.mutex_list.getD 0 none with
     | some m => m.locked
     | none => true) = false ∧
    Event.detect ∈ (sysMutexLock wsAvail 0).1 := by decide

/-- C3 (amended): the detector is gated solely by the per-process flag —
it runs on every `sys_mutex_lock` / `sys_semaphore_down` call exactly when
`dead_lock_detect` is set, before `lock()`/`down()`, regardless of the
resource's availability; and with detection disabled no such call can
return the deadlock sentinel (every non-panicking call returns 0). -/
theorem c3_detector_gating (ps : ProcessState) (mid sid : Nat) :
    (Event.detect ∈ (sysMutexLock ps mid).1 ↔ ps.dead_lock_detect = true) ∧
    (Event.detect ∈ (sysSemaphoreDown ps sid).1 ↔ ps.dead_lock_detect = true) ∧
    (ps.dead_lock_detect = false →
      (∀ r ps2, (sysMutexLock ps mid).2 = some (r, ps2) → r = 0) ∧
      (∀ r ps2, (sysSemaphoreDown ps sid).2 = some (r, ps2) → r = 0)) := by
  refine ⟨?_, ?_, ?_⟩
  · unfold sysMutexLock
    cases hd : ps.dead_lock_detect with
    | true =>
      by_cases hdet : deadlock_detect ps.tasks ps.mutex_list ps.semaphore_list false mid
          ps.current_tid = true
      · simp [hdet]
      · simp only [Bool.not_eq_true] at hdet
        simp [hdet]
    | false =>
      dsimp only
      rcases mutexLockTail_events ps mid with h | h <;> simp [h]
  · unfold sysSemaphoreDown
    cases hd : ps.dead_lock_detect with
    | true =>
      by_cases hdet : deadlock_detect ps.tasks ps.mutex_list ps.semaphore_list true sid
          ps.current_tid = true
      · simp [hdet]
      · simp only [Bool.not_eq_true] at hdet
        simp [hdet]
    | false =>
      dsimp only
      rcases semDownTail_events ps sid with h | h <;> simp [h]
  · intro hd
    constructor
    · intro r ps2 h
      unfold sysMutexLock at h
      rw [hd] at h
      exact mutexLockTail_ret ps mid r ps2 h
    · intro r ps2 h
      unfold sysSemaphoreDown at h
      rw [hd] at h
      exact semDownTail_ret ps sid r ps2 h

/-- C3 witness: the gating iff at the crossed-deadlock state, and the
detection-off state returning 0 from a concrete lock call. -/
theorem c3_witness :
    (Event.detect ∈ (sysMutexLock wsCross 0).1 ↔ wsCross.dead_lock_detect = true) ∧
    wsOff.dead_lock_detect = false ∧ (0 : Int) = 0 :=
  ⟨(c3_detector_gating wsCross 0 0).1, rfl,
   ((c3_detector_gating wsOff 0 0).2.2 rfl).1 0
     ⟨[some ⟨[(false, 0)], none⟩], [some ⟨MutexKind.spin, true, []⟩], [], [], false, 0⟩
     (by decide)⟩

/-- C10: `sys_condvar_wait`, before enqueueing the caller, removes the
associated mutex from the calling task's allocation ledger and records it
as the task's pending need — so the blocked waiter is seen by the detector
as needing, not holding, the mutex — and a caller whose pending need is
already set hits the fatal assertion of `set_need_resource`. -/
theorem c10_condvar_wait_ledger (ps : ProcessState) (cid mid : Nat) (t : TCBInner)
    (ht : ps.tasks.getD ps.current_tid none = some t)
    (hc : ps.condvar_list.getD cid none ≠ none)
    (hm : ps.mutex_list.getD mid none ≠ none)
    (hdup : t.allocation.count (false, mid) ≤ 1)
    (hq : ∀ m, ps.mutex_list.getD mid none = some m → ¬ ps.current_tid ∈ m.wait_queue) :
    (∀ n, t.need = some n → sysCondvarWait ps cid mid = ([], none)) ∧
    (t.need = none →
      (sysCondvarWait ps cid mid).1 = [Event.waitCalled cid mid] ∧
      (sysCondvarWait ps cid mid).2 ≠ none ∧
      ∀ r ps4, (sysCondvarWait ps cid mid).2 = some (r, ps4) →
        r = 0 ∧
        (ps4.tasks.getD ps.current_tid none).map TCBInner.need =
          some (some (false, mid)) ∧
        (ps4.tasks.getD ps.current_tid none).map
          (fun t2 => decide ((false, mid) ∈ t2.allocation)) = some false) := by
  obtain ⟨c, hc2⟩ : ∃ c, ps.condvar_list.getD cid none = some c := by
    cases h : ps.condvar_list.getD cid none with
    | none => exact absurd h hc
    | some c => exact ⟨c, rfl⟩
  obtain ⟨m, hm2⟩ : ∃ m, ps.mutex_list.getD mid none = some m := by
    cases h : ps.mutex_list.getD mid none with
    | none => exact absurd h hm
    | some m => exact ⟨m, rfl⟩
  obtain ⟨ps1, t1, hmark, ht1, hml1, hsl1, hcl1, hct1, hdd1, hneed1, hnm1⟩ :=
    mark_released_spec ps false mid t ht hdup
  constructor
  · intro n hn
    unfold sysCondvarWait
    rw [hc2, hm2]
    dsimp only
    rw [hmark]
    dsimp only
    unfold set_need_resource
    rw [hct1, ht1]
    dsimp only
    rw [hneed1, hn]
  · intro hn
    have hset : set_need_resource ps1 false mid =
        some (updateTask ps1 (fun t0 => { t0 with need := some (false, mid) })) := by
      unfold set_need_resource
      rw [hct1, ht1]
      dsimp only
      rw [hneed1, hn]
    set ps2 := updateTask ps1 (fun t0 => { t0 with need := some (false, mid) }) with hps2
    have ht2 : ps2.tasks.getD ps.current_tid none =
        some { t1 with need := some (false, mid) } := by
      rw [hps2, ← hct1]
      exact updateTask_getD ps1 _ t1 (by rw [hct1]; exact ht1)
    have hml2 : ps2.mutex_list = ps.mutex_list := hml1
    have ht3 : (condvarWaitOp ps2 cid mid).tasks.getD ps.current_tid none =
        some { t1 with need := some (false, mid) } := by
      rw [condvarWaitOp_tasks_getD ps2 cid mid ps.current_tid ?_]
      · exact ht2
      · intro m0 hm0 hmem
        rw [hml2] at hm0
        exact hq m0 hm0 hmem
    have hres : sysCondvarWait ps cid mid =
        ([Event.waitCalled cid mid], some (0, condvarWaitOp ps2 cid mid)) := by
      unfold sysCondvarWait
      rw [hc2, hm2]
      dsimp only
      rw [hmark]
      dsimp only
      rw [hset]
    refine ⟨by rw [hres], by rw [hres]; exact Option.some_ne_none _, ?_⟩
    intro r ps4 heq
    rw [hres] at heq
    have h2 := Option.some.inj heq
    have hr : (0 : Int) = r := congrArg Prod.fst h2
    have hps4 : condvarWaitOp ps2 cid mid = ps4 := congrArg Prod.snd h2
    subst hps4
    refine ⟨hr.symm, ?_, ?_⟩
    · rw [ht3]
      rfl
    · rw [ht3]
      simp [hnm1]

/-- C10 witness: a task holding mutex 0 waits on condvar 0; the call emits
`waitCalled` and succeeds. -/
theorem c10_witness :
    wsLedger.tasks.getD wsLedger.current_tid none = some ⟨[(false, 0)], none⟩ ∧
    List.count ((false : Bool), (0 : Nat)) [((false : Bool), (0 : Nat))] ≤ 1 ∧
    (sysCondvarWait wsLedger 0 0).1 = [Event.waitCalled 0 0] ∧
    (sysCondvarWait wsLedger 0 0).2 ≠ none := by
  have hq : ∀ m, wsLedger.mutex_list.getD 0 none = some m →
      ¬ wsLedger.current_tid ∈ m.wait_queue := by
    intro m hm0 hmem
    have h3 : (some (⟨MutexKind.blocking, true, []⟩ : MutexState) : Option MutexState) =
        some m := hm0
    cases h3
    simp at hmem
  have h := (c10_condvar_wait_ledger wsLedger 0 0 ⟨[(false, 0)], none⟩
    (by decide) (by decide) (by decide) (by decide) hq).2 rfl
  exact ⟨by decide, by decide, h.1, h.2.1⟩

/-- C1: with detection enabled, whenever the detector judges the
hypothetical mutex-lock (resp., independently, semaphore-down) request
unsafe, that syscall returns the reserved sentinel `-0xDEAD`, `lock()` /
`down()` is never invoked (no `lockCalled` / `downCalled` event), and the
whole process state — in particular every task's allocation and need
ledger — is returned unchanged.  The two refusals are separate
implications, each assuming only its own request's unsafety. -/
theorem c1_deadlock_refusal (ps : ProcessState) (mid sid : Nat) :
    (ps.dead_lock_detect = true →
      deadlock_detect ps.tasks ps.mutex_list ps.semaphore_list false mid
        ps.current_tid = true →
      sysMutexLock ps mid = ([Event.detect], some (-0xDEAD, ps))) ∧
    (ps.dead_lock_detect = true →
      deadlock_detect ps.tasks ps.mutex_list ps.semaphore_list true sid
        ps.current_tid = true →
      sysSemaphoreDown ps sid = ([Event.detect], some (-0xDEAD, ps))) := by
  constructor
  · intro hd hm
    unfold sysMutexLock
    rw [hd, hm]
    simp
  · intro hd hs
    unfold sysSemaphoreDown
    rw [hd, hs]
    simp

/-- C1 witness: the mutex refusal applies on its own at a one-task
self-deadlock state with no semaphore at all, and both refusals apply at
the crossed two-task deadlock state. -/
theorem c1_witness :
    (⟨[some ⟨[(false, 0)], none⟩], [some ⟨MutexKind.spin, true, []⟩], [], [], true, 0⟩ :
      ProcessState).dead_lock_detect = true ∧
    deadlock_detect [some ⟨[(false, 0)], none⟩] [some ⟨MutexKind.spin, true, []⟩] []
      false 0 0 = true ∧
    sysMutexLock
      ⟨[some ⟨[(false, 0)], none⟩], [some ⟨MutexKind.spin, true, []⟩], [], [], true, 0⟩ 0 =
      ([Event.detect], some (-0xDEAD,
        ⟨[some ⟨[(false, 0)], none⟩], [some ⟨MutexKind.spin, true, []⟩], [], [], true, 0⟩)) ∧
    wsCross.dead_lock_detect = true ∧
    deadlock_detect wsCross.tasks wsCross.mutex_list wsCross.semaphore_list true 0
      wsCross.current_tid = true ∧
    sysSemaphoreDown wsCross 0 = ([Event.detect], some (-0xDEAD, wsCross)) :=
  ⟨by decide, by decide,
   (c1_deadlock_refusal
     ⟨[some ⟨[(false, 0)], none⟩], [some ⟨MutexKind.spin, true, []⟩], [], [], true, 0⟩
     0 0).1 (by decide) (by decide),
   by decide, by decide,
   (c1_deadlock_refusal wsCross 0 0).2 (by decide) (by decide)⟩

/-- C9: `set_need_resource` with the calling task's need field already set
is the fatal assertion (modelled as `none`); with the field `None` it
succeeds and stores exactly the requested pair — so under the no-concurrent-
request precondition the assertion never fires. -/
theorem c9_need_assertion (ps : ProcessState) (flag : Bool) (id : Nat) (t : TCBInner)
    (ht : ps.tasks.getD ps.current_tid none = some t) :
    (t.need = none →
      set_need_resource ps flag id =
        some { ps with tasks := (ps.tasks.set ps.current_tid
          (some { t with need := some (flag, id) })) }) ∧
    (∀ n, t.need = some n → set_need_resource ps flag id = none) := by
  unfold set_need_resource
  rw [ht]
  dsimp only
  constructor
  · intro hn
    rw [hn]
    dsimp only
    unfold updateTask
    rw [ht]
  · intro n hn
    rw [hn]

/-- C9 witness: recording a need on a task with `need = None` succeeds, and
the second conjunct applies at a state whose task already has one. -/
theorem c9_witness :
    wsAvail.tasks.getD wsAvail.current_tid none = some ⟨[], none⟩ ∧
    set_need_resource wsAvail true 3 =
      some { wsAvail with tasks := (wsAvail.tasks.set wsAvail.current_tid
        (some ⟨[], some (true, 3)⟩)) } :=
  ⟨by decide,
   (c9_need_assertion wsAvail true 3 ⟨[], none⟩ (by decide)).1 rfl⟩

/-- C7 witness: empty address space, one-page request. -/
theorem c7_witness :
    (∀ a ∈ (⟨[], []⟩ : MemorySet).areas, a.start_vpn ≠ vaFloor 0) ∧
    task_mmap ⟨[], []⟩ 0 4096 1 = (0, ⟨[⟨0, 1, 18⟩], []⟩) ∧
    task_munmap ⟨[⟨0, 1, 18⟩], []⟩ 0 4096 = (0, ⟨[], []⟩) :=
  ⟨by simp, by decide,
   c7_roundtrip ⟨[], []⟩ 0 4096 1 ⟨[⟨0, 1, 18⟩], []⟩ (by simp) (by decide)⟩

/-! ### List bookkeeping lemmas for the detector matrices -/

/-- Generic `getD` after `set`, same index. -/
theorem getD_set_self_d {α : Type} (l : List α) (i : Nat) (x d : α)
    (h : i < l.length) : (l.set i x).getD i d = x := by
  rw [List.getD_eq_getElem?_getD, List.getElem?_set_self h]
  rfl

/-- Generic `getD` after `set`, different index. -/
theorem getD_set_ne_d {α : Type} (l : List α) (i j : Nat) (x d : α)
    (h : i ≠ j) : (l.set i x).getD j d = l.getD j d := by
  rw [List.getD_eq_getElem?_getD, List.getD_eq_getElem?_getD, List.getElem?_set_ne h]

/-- `getD` past the end is the default. -/
theorem getD_of_le {α : Type} (l : List α) (j : Nat) (d : α) (h : l.length ≤ j) :
    l.getD j d = d := by
  rw [List.getD_eq_getElem?_getD, List.getElem?_eq_none h]
  rfl

/-- `getD` of an all-zero vector is zero at every index. -/
theorem getD_replicate_zero (m k : Nat) : (List.replicate m 0).getD k 0 = 0 := by
  rcases Nat.lt_or_ge k m with h | h
  · rw [List.getD_eq_getElem?_getD, List.getElem?_replicate, if_pos h]
    rfl
  · exact getD_of_le _ _ _ (by simpa using h)

/-- `getD` through a cons at a successor index. -/
theorem getD_cons_succ_d {α : Type} (a : α) (l : List α) (n : Nat) (d : α) :
    (a :: l).getD (n + 1) d = l.getD n d := by
  rw [List.getD_eq_getElem?_getD, List.getD_eq_getElem?_getD, List.getElem?_cons_succ]

/-- `v[i] += c` read back. -/
theorem set_add_getD (l : List Nat) (i c j : Nat) (hi : i < l.length) :
    (l.set i (l.getD i 0 + c)).getD j 0 = l.getD j 0 + (if j = i then c else 0) := by
  by_cases h : j = i
  · subst h
    rw [getD_set_self_d _ _ _ _ hi, if_pos rfl]
  · rw [getD_set_ne_d _ _ _ _ _ (fun he => h he.symm), if_neg h]
    omega

/-- `bumpAt` read back. -/
theorem bumpAt_getD (l : List Nat) (i j : Nat) (hi : i < l.length) :
    (bumpAt l i).getD j 0 = l.getD j 0 + (if j = i then 1 else 0) :=
  set_add_getD l i 1 j hi

/-- `bumpAt` preserves length. -/
theorem bumpAt_length (l : List Nat) (i : Nat) : (bumpAt l i).length = l.length :=
  List.length_set l i _

/-- The bump fold over a ledger counts matching entries. -/
theorem foldl_bump_getD (g : Bool × Nat → Nat) :
    ∀ (entries : List (Bool × Nat)) (acc : List Nat) (k : Nat),
      (∀ r ∈ entries, g r < acc.length) →
      (entries.foldl (fun a r => bumpAt a (g r)) acc).getD k 0 =
        acc.getD k 0 + entries.countP (fun r => g r == k) := by
  intro entries
  induction entries with
  | nil => intro acc k _; simp
  | cons e rest ih =>
    intro acc k hb
    have hbe : g e < acc.length := hb e (by simp)
    have hlen : (bumpAt acc (g e)).length = acc.length := bumpAt_length acc (g e)
    rw [List.foldl_cons, ih (bumpAt acc (g e)) k (fun r hr => by
      rw [hlen]; exact hb r (by simp [hr]))]
    rw [bumpAt_getD acc (g e) k hbe, List.countP_cons]
    have : (if k = g e then 1 else 0) = (if (g e == k) = true then 1 else 0) := by
      by_cases h : k = g e
      · simp [h]
      · have h2 : ¬ g e = k := fun he => h he.symm
        simp [h, h2]
    omega

/-- The bump fold preserves length. -/
theorem foldl_bump_length (g : Bool × Nat → Nat) :
    ∀ (entries : List (Bool × Nat)) (acc : List Nat),
      (entries.foldl (fun a r => bumpAt a (g r)) acc).length = acc.length := by
  intro entries
  induction entries with
  | nil => intro acc; rfl
  | cons e rest ih =>
    intro acc
    rw [List.foldl_cons, ih (bumpAt acc (g e)), bumpAt_length]

/-- `addRowLoop` preserves length. -/
theorem addRowLoop_length (len : Nat) (work alloc : List Nat) (tid : Nat) :
    (addRowLoop len work alloc tid).length = work.length := by
  unfold addRowLoop
  generalize List.range len = L
  induction L generalizing work with
  | nil => rfl
  | cons j rest ih => rw [List.foldl_cons, ih, List.length_set]

/-- `addRowLoop` read back: adds the allocation row below `len`, leaves the
rest alone. -/
theorem addRowLoop_getD (len : Nat) (work alloc : List Nat) (tid j : Nat)
    (hw : len ≤ work.length) :
    (addRowLoop len work alloc tid).getD j 0 =
      work.getD j 0 + (if j < len then alloc.getD (tid * len + j) 0 else 0) := by
  unfold addRowLoop
  have main : ∀ (L : List Nat) (w : List Nat), L.Nodup → (∀ i ∈ L, i < w.length) →
      (L.foldl (fun w2 i => w2.set i (w2.getD i 0 + alloc.getD (tid * len + i) 0)) w).getD j 0 =
        w.getD j 0 + (if j ∈ L then alloc.getD (tid * len + j) 0 else 0) := by
    intro L
    induction L with
    | nil => intro w _ _; simp
    | cons i rest ih =>
      intro w hnd hb
      have hiw : i < w.length := hb i (by simp)
      rw [List.foldl_cons]
      have hlen : (w.set i (w.getD i 0 + alloc.getD (tid * len + i) 0)).length = w.length :=
        List.length_set w i _
      rw [ih _ (by exact (List.nodup_cons.mp hnd).2) (fun r hr => by
        rw [hlen]; exact hb r (by simp [hr]))]
      rw [set_add_getD w i _ j hiw]
      by_cases hj : j = i
      · subst hj
        have hjr : ¬ j ∈ rest := (List.nodup_cons.mp hnd).1
        simp [hjr]
      · simp only [List.mem_cons]
        by_cases hjr : j ∈ rest
        · simp [hjr, hj]
        · simp [hjr, hj]
  rw [main (List.range len) work (List.nodup_range len)
    (fun i hi => Nat.lt_of_lt_of_le (List.mem_range.mp hi) hw)]
  simp [List.mem_range]

/-- Lists of equal length with equal `getD 0` everywhere in range are equal. -/
theorem list_eq_of_getD (l1 l2 : List Nat) (hlen : l1.length = l2.length)
    (h : ∀ j, j < l1.length → l1.getD j 0 = l2.getD j 0) : l1 = l2 := by
  apply List.ext_getElem hlen
  intro j h1 h2
  have h3 := h j h1
  rw [List.getD_eq_getElem?_getD, List.getD_eq_getElem?_getD,
    List.getElem?_eq_getElem h1, List.getElem?_eq_getElem h2] at h3
  exact h3

/-- Row-major flattening `t * len + j` with `j < len` is injective. -/
theorem flat_index_inj (len t j t2 j2 : Nat) (hj : j < len) (hj2 : j2 < len)
    (h : t * len + j = t2 * len + j2) : t = t2 ∧ j = j2 := by
  rcases Nat.lt_trichotomy t t2 with hlt | heq | hgt
  · exfalso
    have h1 : t * len + j < (t + 1) * len := by
      rw [Nat.succ_mul]
      omega
    have h2 : (t + 1) * len ≤ t2 * len := Nat.mul_le_mul_right len hlt
    omega
  · subst heq
    omega
  · exfalso
    have h1 : t2 * len + j2 < (t2 + 1) * len := by
      rw [Nat.succ_mul]
      omega
    have h2 : (t2 + 1) * len ≤ t * len := Nat.mul_le_mul_right len hgt
    omega

/-- The bump index of a ledger entry lands in row `t` iff the entry's task
is `t` and its resource column is `j`. -/
theorem flat_eq_iff (len tid0 t j f : Nat) (hj : j < len) (hf : f < len) :
    (f + len * tid0 = t * len + j) ↔ (t = tid0 ∧ f = j) := by
  rw [Nat.mul_comm len tid0]
  constructor
  · intro h
    have h2 : tid0 * len + f = t * len + j := by omega
    have h3 := flat_index_inj len tid0 f t j hf hj h2
    exact ⟨h3.1.symm, h3.2⟩
  · rintro ⟨rfl, rfl⟩
    omega

/-- `buildRowsAux` preserves both matrix lengths. -/
theorem buildRowsAux_length (len mlen : Nat) :
    ∀ (rest : List (Option TCBInner)) (tid0 : Nat) (accA accN : List Nat),
      (buildRowsAux len mlen rest tid0 (accA, accN)).1.length = accA.length ∧
      (buildRowsAux len mlen rest tid0 (accA, accN)).2.length = accN.length := by
  intro rest
  induction rest with
  | nil => intro tid0 accA accN; exact ⟨rfl, rfl⟩
  | cons o rest ih =>
    intro tid0 accA accN
    cases o with
    | none => exact ih (tid0 + 1) accA accN
    | some task =>
      simp only [buildRowsAux]
      constructor
      · rw [(ih (tid0 + 1) _ _).1]
        exact foldl_bump_length _ task.allocation accA
      · rw [(ih (tid0 + 1) _ _).2]
        cases task.need with
        | none => rfl
        | some nd => exact bumpAt_length accN _

/-- `buildRowsAux` read back: each matrix entry is the accumulator plus the
contribution of the task slot owning that row. -/
theorem buildRowsAux_getD (len mlen n : Nat) :
    ∀ (rest : List (Option TCBInner)) (tid0 : Nat) (accA accN : List Nat) (t j : Nat),
      j < len →
      accA.length = len * n → accN.length = len * n →
      tid0 + rest.length ≤ n →
      (∀ o ∈ rest, ∀ task, o = some task →
        (∀ r ∈ task.allocation, fetch_id mlen r.1 r.2 < len) ∧
        (∀ nd, task.need = some nd → fetch_id mlen nd.1 nd.2 < len)) →
      ((buildRowsAux len mlen rest tid0 (accA, accN)).1.getD (t * len + j) 0 =
        accA.getD (t * len + j) 0 +
          (if tid0 ≤ t then allocContrib mlen (rest.getD (t - tid0) none) j else 0)) ∧
      ((buildRowsAux len mlen rest tid0 (accA, accN)).2.getD (t * len + j) 0 =
        accN.getD (t * len + j) 0 +
          (if tid0 ≤ t then needContrib mlen (rest.getD (t - tid0) none) j else 0)) := by
  intro rest
  induction rest with
  | nil =>
    intro tid0 accA accN t j hj hA hN hb hwf
    constructor <;> simp [buildRowsAux, allocContrib, needContrib, List.getD]
  | cons o rest ih =>
    intro tid0 accA accN t j hj hA hN hb hwf
    have hwf2 : ∀ o2 ∈ rest, ∀ task, o2 = some task →
        (∀ r ∈ task.allocation, fetch_id mlen r.1 r.2 < len) ∧
        (∀ nd, task.need = some nd → fetch_id mlen nd.1 nd.2 < len) := by
      intro o2 ho2
      exact hwf o2 (by simp [ho2])
    have hb2 : tid0 + 1 + rest.length ≤ n := by
      simp only [List.length_cons] at hb
      omega
    have hn1 : tid0 + 1 ≤ n := by
      simp only [List.length_cons] at hb
      omega
    cases o with
    | none =>
      simp only [buildRowsAux]
      obtain ⟨ihA, ihN⟩ := ih (tid0 + 1) accA accN t j hj hA hN hb2 hwf2
      rw [ihA, ihN]
      rcases Nat.lt_trichotomy t tid0 with hlt | heq | hgt
      · simp only [if_neg (show ¬ tid0 + 1 ≤ t by omega), if_neg (show ¬ tid0 ≤ t by omega)]
        constructor <;> trivial
      · subst heq
        simp only [if_neg (show ¬ t + 1 ≤ t by omega), if_pos (Nat.le_refl t), Nat.sub_self]
        constructor <;> trivial
      · have hstep : t - tid0 = (t - (tid0 + 1)) + 1 := by omega
        simp only [if_pos (show tid0 + 1 ≤ t by omega), if_pos (show tid0 ≤ t by omega),
          hstep, getD_cons_succ_d]
        constructor <;> trivial
    | some task =>
      simp only [buildRowsAux]
      have hwfh := hwf (some task) (by simp) task rfl
      have hboundA : ∀ r ∈ task.allocation,
          fetch_id mlen r.1 r.2 + len * tid0 < accA.length := by
        intro r hr
        have h1 := hwfh.1 r hr
        have h2 : len * (tid0 + 1) ≤ len * n := Nat.mul_le_mul_left len hn1
        have h3 : len * (tid0 + 1) = len * tid0 + len := by ring
        omega
      have hA2len : (task.allocation.foldl
          (fun a r => bumpAt a (fetch_id mlen r.1 r.2 + len * tid0)) accA).length =
          accA.length := foldl_bump_length _ task.allocation accA
      have hN2len : (match task.need with
          | some nd => bumpAt accN (fetch_id mlen nd.1 nd.2 + len * tid0)
          | none => accN).length = accN.length := by
        cases task.need with
        | none => rfl
        | some nd => exact bumpAt_length accN _
      obtain ⟨ihA, ihN⟩ := ih (tid0 + 1) _ _ t j hj (by rw [hA2len]; exact hA)
        (by rw [hN2len]; exact hN) hb2 hwf2
      rw [ihA, ihN]
      have hAstep : (task.allocation.foldl
          (fun a r => bumpAt a (fetch_id mlen r.1 r.2 + len * tid0)) accA).getD
            (t * len + j) 0 =
          accA.getD (t * len + j) 0 +
            (if t = tid0 then allocContrib mlen (some task) j else 0) := by
        rw [foldl_bump_getD _ task.allocation accA _ hboundA]
        by_cases ht : t = tid0
        · subst ht
          rw [if_pos rfl]
          have hcnt : task.allocation.countP
              (fun r => fetch_id mlen r.1 r.2 + len * t == t * len + j) =
              task.allocation.countP (fun r => fetch_id mlen r.1 r.2 == j) := by
            apply List.countP_congr
            intro r hr
            have hf := hwfh.1 r hr
            have hiff := flat_eq_iff len t t j (fetch_id mlen r.1 r.2) hj hf
            by_cases he : fetch_id mlen r.1 r.2 = j
            · simp only [beq_iff_eq]
              constructor
              · intro _; exact he
              · intro _; exact hiff.mpr ⟨rfl, he⟩
            · simp only [beq_iff_eq]
              constructor
              · intro h2
                exact absurd (hiff.mp h2).2 he
              · intro h2
                exact absurd h2 he
          rw [hcnt]
          rfl
        · rw [if_neg ht]
          have hcnt : task.allocation.countP
              (fun r => fetch_id mlen r.1 r.2 + len * tid0 == t * len + j) = 0 := by
            rw [List.countP_eq_zero]
            intro r hr
            have hf := hwfh.1 r hr
            simp only [beq_iff_eq]
            intro h2
            exact ht ((flat_eq_iff len tid0 t j _ hj hf).mp h2).1
          rw [hcnt]
      have hNstep : (match task.need with
          | some nd => bumpAt accN (fetch_id mlen nd.1 nd.2 + len * tid0)
          | none => accN).getD (t * len + j) 0 =
          accN.getD (t * len + j) 0 +
            (if t = tid0 then needContrib mlen (some task) j else 0) := by
        cases hneed : task.need with
        | none =>
          simp [needContrib, hneed]
        | some nd =>
          have hf := hwfh.2 nd hneed
          have hbound : fetch_id mlen nd.1 nd.2 + len * tid0 < accN.length := by
            have h2 : len * (tid0 + 1) ≤ len * n := Nat.mul_le_mul_left len hn1
            have h3 : len * (tid0 + 1) = len * tid0 + len := by ring
            omega
          rw [bumpAt_getD accN _ _ hbound]
          have hiff := flat_eq_iff len tid0 t j (fetch_id mlen nd.1 nd.2) hj hf
          by_cases ht : t = tid0
          · subst ht
            by_cases he : fetch_id mlen nd.1 nd.2 = j
            · rw [if_pos (by omega), if_pos rfl]
              simp [needContrib, hneed, he]
            · rw [if_neg (fun h2 => he (hiff.mp h2.symm).2), if_pos rfl]
              simp [needContrib, hneed, he]
          · rw [if_neg (fun h2 => ht (hiff.mp h2.symm).1), if_neg ht]
      rw [hAstep, hNstep]
      rcases Nat.lt_trichotomy t tid0 with hlt | heq | hgt
      · simp only [if_neg (show ¬ t = tid0 by omega), if_neg (show ¬ tid0 + 1 ≤ t by omega),
          if_neg (show ¬ tid0 ≤ t by omega)]
        constructor <;> trivial
      · subst heq
        simp only [if_pos rfl, if_neg (show ¬ t + 1 ≤ t by omega), if_pos (Nat.le_refl t),
          Nat.sub_self]
        constructor <;> trivial
      · have hstep : t - tid0 = (t - (tid0 + 1)) + 1 := by omega
        simp only [if_neg (show ¬ t = tid0 by omega), if_pos (show tid0 + 1 ≤ t by omega),
          if_pos (show tid0 ≤ t by omega), hstep, getD_cons_succ_d]
        constructor <;> trivial

/-- `buildWorkMutexAux` preserves length. -/
theorem buildWorkMutexAux_length :
    ∀ (rest : List (Option MutexState)) (i0 : Nat) (w : List Nat),
      (buildWorkMutexAux rest i0 w).length = w.length := by
  intro rest
  induction rest with
  | nil => intro i0 w; rfl
  | cons o rest ih =>
    intro i0 w
    simp only [buildWorkMutexAux]
    cases o with
    | none => exact ih (i0 + 1) w
    | some m =>
      rw [ih (i0 + 1) _]
      cases hm : m.locked
      · simp only [hm, Bool.not_false, eq_self_iff_true, if_true]
        exact bumpAt_length w i0
      · simp only [hm, Bool.not_true, Bool.false_eq_true, if_false]

/-- Combining one slot's contribution with the recursive tail (general). -/
theorem contrib_step (wj c i0 j : Nat) (g : Nat → Nat) (hg0 : g 0 = c) :
    wj + (if j = i0 then c else 0) + (if i0 + 1 ≤ j then g (j - (i0 + 1) + 1) else 0) =
    wj + (if i0 ≤ j then g (j - i0) else 0) := by
  rcases Nat.lt_trichotomy j i0 with hlt | heq | hgt
  · simp [show ¬ j = i0 by omega, show ¬ i0 + 1 ≤ j by omega, show ¬ i0 ≤ j by omega]
  · subst heq
    simp [show ¬ j + 1 ≤ j by omega, Nat.sub_self, hg0]
  · have h2 : j - i0 = j - (i0 + 1) + 1 := by omega
    simp [show ¬ j = i0 by omega, show i0 + 1 ≤ j by omega, show i0 ≤ j by omega, h2]

/-- Combining a zero-contribution slot with the recursive tail. -/
theorem contrib_step_zero (wj i0 j : Nat) (g : Nat → Nat) (hg0 : g 0 = 0) :
    wj + (if i0 + 1 ≤ j then g (j - (i0 + 1) + 1) else 0) =
    wj + (if i0 ≤ j then g (j - i0) else 0) := by
  rcases Nat.lt_trichotomy j i0 with hlt | heq | hgt
  · simp [show ¬ i0 + 1 ≤ j by omega, show ¬ i0 ≤ j by omega]
  · subst heq
    simp [show ¬ j + 1 ≤ j by omega, Nat.sub_self, hg0]
  · have h2 : j - i0 = j - (i0 + 1) + 1 := by omega
    simp [show ¬ j = i0 by omega, show i0 + 1 ≤ j by omega, show i0 ≤ j by omega, h2]

/-- `buildWorkMutexAux` read back. -/
theorem buildWorkMutexAux_getD :
    ∀ (rest : List (Option MutexState)) (i0 : Nat) (w : List Nat) (j : Nat),
      i0 + rest.length ≤ w.length →
      (buildWorkMutexAux rest i0 w).getD j 0 =
        w.getD j 0 + (if i0 ≤ j then mutexContrib (rest.getD (j - i0) none) else 0) := by
  intro rest
  induction rest with
  | nil =>
    intro i0 w j _
    simp [buildWorkMutexAux, mutexContrib, List.getD]
  | cons o rest ih =>
    intro i0 w j hb
    have hi0 : i0 < w.length := by
      simp only [List.length_cons] at hb
      omega
    have hb2 : i0 + 1 + rest.length ≤ w.length := by
      simp only [List.length_cons] at hb
      omega
    have hgsucc : ∀ k, mutexContrib ((o :: rest).getD (k + 1) none) =
        mutexContrib (rest.getD k none) := by
      intro k
      rw [getD_cons_succ_d]
    cases o with
    | none =>
      simp only [buildWorkMutexAux]
      rw [ih (i0 + 1) w j hb2]
      have h2 := contrib_step_zero (w.getD j 0) i0 j
        (fun k => mutexContrib ((none :: rest).getD k none)) rfl
      simp only [hgsucc] at h2
      exact h2
    | some m =>
      simp only [buildWorkMutexAux]
      cases hm : m.locked
      · simp only [hm, Bool.not_false, eq_self_iff_true, if_true]
        rw [ih (i0 + 1) _ j (by rw [bumpAt_length]; exact hb2), bumpAt_getD w i0 j hi0]
        have h2 := contrib_step (w.getD j 0) 1 i0 j
          (fun k => mutexContrib ((some m :: rest).getD k none)) (by simp [mutexContrib, hm])
        simp only [hgsucc] at h2
        exact h2
      · simp only [hm, Bool.not_true, Bool.false_eq_true, if_false]
        rw [ih (i0 + 1) w j hb2]
        have h2 := contrib_step_zero (w.getD j 0) i0 j
          (fun k => mutexContrib ((some m :: rest).getD k none)) (by simp [mutexContrib, hm])
        simp only [hgsucc] at h2
        exact h2

/-- `buildWorkSemAux` preserves length. -/
theorem buildWorkSemAux_length :
    ∀ (rest : List (Option SemState)) (i0 : Nat) (w : List Nat),
      (buildWorkSemAux rest i0 w).length = w.length := by
  intro rest
  induction rest with
  | nil => intro i0 w; rfl
  | cons o rest ih =>
    intro i0 w
    simp only [buildWorkSemAux]
    cases o with
    | none => exact ih (i0 + 1) w
    | some s =>
      rw [ih (i0 + 1) _]
      dsimp only
      by_cases hc : s.count > 0
      · rw [if_pos hc]
        exact List.length_set w i0 _
      · rw [if_neg hc]

/-- `buildWorkSemAux` read back. -/
theorem buildWorkSemAux_getD :
    ∀ (rest : List (Option SemState)) (i0 : Nat) (w : List Nat) (j : Nat),
      i0 + rest.length ≤ w.length →
      (buildWorkSemAux rest i0 w).getD j 0 =
        w.getD j 0 + (if i0 ≤ j then semContrib (rest.getD (j - i0) none) else 0) := by
  intro rest
  induction rest with
  | nil =>
    intro i0 w j _
    simp [buildWorkSemAux, semContrib, List.getD]
  | cons o rest ih =>
    intro i0 w j hb
    have hi0 : i0 < w.length := by
      simp only [List.length_cons] at hb
      omega
    have hb2 : i0 + 1 + rest.length ≤ w.length := by
      simp only [List.length_cons] at hb
      omega
    have hgsucc : ∀ k, semContrib ((o :: rest).getD (k + 1) none) =
        semContrib (rest.getD k none) := by
      intro k
      rw [getD_cons_succ_d]
    cases o with
    | none =>
      simp only [buildWorkSemAux]
      rw [ih (i0 + 1) w j hb2]
      have h2 := contrib_step_zero (w.getD j 0) i0 j
        (fun k => semContrib ((none :: rest).getD k none)) rfl
      simp only [hgsucc] at h2
      exact h2
    | some s =>
      simp only [buildWorkSemAux]
      by_cases hc : s.count > 0
      · rw [if_pos hc, ih (i0 + 1) _ j (by rw [List.length_set]; exact hb2),
          set_add_getD w i0 _ j hi0]
        have h2 := contrib_step (w.getD j 0) s.count.toNat i0 j
          (fun k => semContrib ((some s :: rest).getD k none)) (by simp [semContrib, hc])
        simp only [hgsucc] at h2
        exact h2
      · rw [if_neg hc, ih (i0 + 1) w j hb2]
        have h2 := contrib_step_zero (w.getD j 0) i0 j
          (fun k => semContrib ((some s :: rest).getD k none)) (by simp [semContrib, hc])
        simp only [hgsucc] at h2
        exact h2

/-- The code's `Work` vector length. -/
theorem buildWork_length (ml : List (Option MutexState)) (sl : List (Option SemState))
    (len : Nat) : (buildWork ml sl len).length = len := by
  unfold buildWork
  rw [buildWorkSemAux_length, buildWorkMutexAux_length, List.length_replicate]

/-- The code's `Work` vector agrees with the spec's step 3. -/
theorem buildWork_getD (ml : List (Option MutexState)) (sl : List (Option SemState))
    (j : Nat) (hj : j < ml.length + sl.length) :
    (buildWork ml sl (ml.length + sl.length)).getD j 0 = specWork ml sl j := by
  unfold buildWork
  have h1len : (buildWorkMutexAux ml 0 (List.replicate (ml.length + sl.length) 0)).length =
      ml.length + sl.length := by
    rw [buildWorkMutexAux_length, List.length_replicate]
  have hb1 : ml.length + sl.length ≤
      (buildWorkMutexAux ml 0 (List.replicate (ml.length + sl.length) 0)).length := by
    rw [h1len]
  rw [buildWorkSemAux_getD sl ml.length _ j hb1]
  have hb2 : 0 + ml.length ≤ (List.replicate (ml.length + sl.length) 0).length := by
    rw [List.length_replicate]
    omega
  rw [buildWorkMutexAux_getD ml 0 _ j hb2]
  rw [getD_replicate_zero]
  simp only [if_pos (Nat.zero_le j), Nat.sub_zero, Nat.zero_add]
  unfold specWork
  rcases Nat.lt_or_ge j ml.length with hlt | hge
  · have h2 : ¬ ml.length ≤ j := by omega
    simp [hlt, h2]
  · have h2 : ¬ j < ml.length := by omega
    have h3 : ml[j]? = none := List.getElem?_eq_none hge
    simp [h2, h3, mutexContrib]

/-- Extracting the in-bounds facts of `wfState`. -/
theorem wfState_bounds (tasks : List (Option TCBInner)) (mlen slen : Nat)
    (hwf : wfState tasks mlen slen = true) :
    ∀ o ∈ tasks, ∀ task, o = some task →
      (∀ r ∈ task.allocation, fetch_id mlen r.1 r.2 < mlen + slen) ∧
      (∀ nd, task.need = some nd → fetch_id mlen nd.1 nd.2 < mlen + slen) := by
  intro o ho task hts
  subst hts
  unfold wfState at hwf
  have h1 := (List.all_eq_true.mp hwf) _ ho
  simp only [Bool.and_eq_true] at h1
  constructor
  · intro r hr
    have h2 := (List.all_eq_true.mp h1.1) r hr
    rw [decide_eq_true_iff] at h2
    unfold fetch_id
    cases hf : r.1
    · rw [hf] at h2
      simp only [Bool.false_eq_true, if_false] at h2
      show r.2 < mlen + slen
      omega
    · rw [hf] at h2
      simp at h2
      show r.2 + mlen < mlen + slen
      omega
  · intro nd hnd
    rw [hnd] at h1
    have h2 := h1.2
    rw [decide_eq_true_iff] at h2
    unfold fetch_id
    cases hf : nd.1
    · rw [hf] at h2
      simp only [Bool.false_eq_true, if_false] at h2
      show nd.2 < mlen + slen
      omega
    · rw [hf] at h2
      simp at h2
      show nd.2 + mlen < mlen + slen
      omega

/-- The code's allocation matrix agrees with the spec's step 1, and the
un-bumped need matrix with the per-task pending-need indicator. -/
theorem buildRows_getD (mlen slen : Nat) (tasks : List (Option TCBInner))
    (hwf : wfState tasks mlen slen = true) (t j : Nat) (hj : j < mlen + slen) :
    ((buildRows (mlen + slen) mlen tasks).1.getD (t * (mlen + slen) + j) 0 =
      specAlloc tasks mlen t j) ∧
    ((buildRows (mlen + slen) mlen tasks).2.getD (t * (mlen + slen) + j) 0 =
      needContrib mlen (tasks.getD t none) j) := by
  unfold buildRows
  obtain ⟨hA, hN⟩ := buildRowsAux_getD (mlen + slen) mlen tasks.length tasks 0
    (List.replicate ((mlen + slen) * tasks.length) 0)
    (List.replicate ((mlen + slen) * tasks.length) 0) t j hj
    (List.length_replicate _ _) (List.length_replicate _ _)
    (by omega) (wfState_bounds tasks mlen slen hwf)
  rw [hA, hN, getD_replicate_zero]
  simp only [if_pos (Nat.zero_le t), Nat.sub_zero, Nat.zero_add]
  constructor <;> trivial

/-- The Boolean eligibility test decides `rowLe`. -/
theorem rowLeWork_iff (len : Nat) (need work : List Nat) (tid : Nat) :
    rowLeWork len need work tid = true ↔ rowLe len need work tid := by
  unfold rowLeWork rowLe
  rw [List.all_eq_true]
  constructor
  · intro h j hj
    exact of_decide_eq_true (h j (List.mem_range.mpr hj))
  · intro h j hj
    exact decide_eq_true (h j (List.mem_range.mp hj))

/-- What a successful `findEligible` guarantees. -/
theorem findEligible_some (len : Nat) (need work : List Nat) (finish : List Bool) (t : Nat)
    (h : findEligible len need work finish = some t) :
    finish.getD t true = false ∧ rowLeWork len need work t = true ∧ t < finish.length := by
  unfold findEligible at h
  cases hf : (finish.enum).find? (fun p => !p.2 && rowLeWork len need work p.1) with
  | none =>
    rw [hf] at h
    exact absurd h (by simp)
  | some pr =>
    rw [hf] at h
    have hp := List.find?_some hf
    have hmem := List.mem_of_find?_eq_some hf
    have hg : finish[pr.1]? = some pr.2 := List.mem_enum_iff_getElem?.mp hmem
    have ht : pr.1 = t := by simpa using h
    simp only [Bool.and_eq_true, Bool.not_eq_true'] at hp
    have hlt : pr.1 < finish.length := by
      by_contra hge
      rw [List.getElem?_eq_none (Nat.le_of_not_lt hge)] at hg
      exact absurd hg (by simp)
    refine ⟨?_, ?_, ?_⟩
    · rw [← ht, List.getD_eq_getElem?_getD, hg, hp.1]
      rfl
    · rw [← ht]
      exact hp.2
    · rw [← ht]
      exact hlt

/-- When no task is eligible, every unfinished row exceeds `Work`
somewhere. -/
theorem findEligible_none (len : Nat) (need work : List Nat) (finish : List Bool)
    (h : findEligible len need work finish = none) :
    ∀ t, finish.getD t true = false → rowLeWork len need work t = false := by
  intro t ht
  unfold findEligible at h
  cases hf : (finish.enum).find? (fun p => !p.2 && rowLeWork len need work p.1) with
  | some pr => rw [hf] at h; exact absurd h (by simp)
  | none =>
    rw [List.find?_eq_none] at hf
    have htl : finish[t]? = some false := by
      rw [List.getD_eq_getElem?_getD] at ht
      cases hx : finish[t]? with
      | none => rw [hx] at ht; exact absurd ht (by simp)
      | some b =>
        rw [hx] at ht
        cases b with
        | false => rfl
        | true => exact absurd ht (by simp)
    have hmem : (t, false) ∈ finish.enum := List.mem_enum_iff_getElem?.mpr htl
    have h2 := hf (t, false) hmem
    simp only [Bool.not_false, Bool.true_and] at h2
    simpa using h2

/-- Growing `Work` preserves eligibility. -/
theorem rowLe_mono (len : Nat) (need w w2 : List Nat) (t : Nat)
    (hmono : ∀ j, j < len → w.getD j 0 ≤ w2.getD j 0)
    (h : rowLe len need w t) : rowLe len need w2 t := by
  intro j hj
  exact Nat.le_trans (h j hj) (hmono j hj)

/-- Releasing two allocation rows into `Work` commutes. -/
theorem addRowLoop_comm (len : Nat) (w alloc : List Nat) (u t : Nat)
    (hw : len ≤ w.length) :
    addRowLoop len (addRowLoop len w alloc u) alloc t =
      addRowLoop len (addRowLoop len w alloc t) alloc u := by
  apply list_eq_of_getD
  · rw [addRowLoop_length, addRowLoop_length, addRowLoop_length, addRowLoop_length]
  · intro j hj
    have h1 : len ≤ (addRowLoop len w alloc u).length := by rw [addRowLoop_length]; exact hw
    have h2 : len ≤ (addRowLoop len w alloc t).length := by rw [addRowLoop_length]; exact hw
    rw [addRowLoop_getD _ _ _ _ _ h1, addRowLoop_getD _ _ _ _ _ hw,
      addRowLoop_getD _ _ _ _ _ h2, addRowLoop_getD _ _ _ _ _ hw]
    omega

/-- Exchange: if a valid completion order contains an eligible task `t`,
then `t` can be moved to the front. -/
theorem validSeq_erase (len : Nat) (need alloc : List Nat) :
    ∀ (σ : List Nat) (work : List Nat), len ≤ work.length → σ.Nodup →
      ValidSeqL len need alloc work σ → ∀ t, t ∈ σ → rowLe len need work t →
      ValidSeqL len need alloc (addRowLoop len work alloc t) (σ.erase t) := by
  intro σ
  induction σ with
  | nil => intro work _ _ _ t ht; simp at ht
  | cons u rest ih =>
    intro work hw hnd hval t ht hel
    by_cases hut : u = t
    · subst hut
      rw [List.erase_cons_head]
      exact hval.2
    · rw [List.erase_cons_tail (by simpa using fun he => hut he)]
      constructor
      · apply rowLe_mono len need work _ _ ?_ hval.1
        intro j hj
        rw [addRowLoop_getD _ _ _ _ _ hw]
        omega
      · rw [addRowLoop_comm len work alloc t u hw]
        have htr : t ∈ rest := by
          cases List.mem_cons.mp ht with
          | inl h => exact absurd h.symm hut
          | inr h => exact h
        have hw2 : len ≤ (addRowLoop len work alloc u).length := by
          rw [addRowLoop_length]
          exact hw
        apply ih (addRowLoop len work alloc u) hw2 (List.nodup_cons.mp hnd).2 hval.2 t htr
        apply rowLe_mono len need work _ _ ?_ hel
        intro j hj
        rw [addRowLoop_getD _ _ _ _ _ hw]
        omega

/-- `getD true = false` pins the entry. -/
theorem getD_false_sem (finish : List Bool) (t : Nat) :
    finish.getD t true = false ↔ finish[t]? = some false := by
  rw [List.getD_eq_getElem?_getD]
  cases hx : finish[t]? with
  | none => simp
  | some b => cases b <;> simp

/-- `contains false` finds exactly the unfinished slots. -/
theorem contains_false_iff (finish : List Bool) :
    finish.contains false = true ↔ ∃ t, finish.getD t true = false := by
  constructor
  · intro hc
    obtain ⟨x, hxmem, hxbeq⟩ := List.contains_iff_exists_mem_beq.mp hc
    have hx : x = false := by cases x <;> simp_all
    subst hx
    obtain ⟨t, htl⟩ := List.mem_iff_getElem?.mp hxmem
    exact ⟨t, (getD_false_sem finish t).mpr htl⟩
  · rintro ⟨t, ht⟩
    rw [getD_false_sem] at ht
    exact List.contains_iff_exists_mem_beq.mpr
      ⟨false, List.mem_iff_getElem?.mpr ⟨t, ht⟩, by simp⟩

/-- Soundness of the code's greedy loop: if it finishes every task, its
pick order is an admissible completion order for the unfinished set. -/
theorem bankersLoop_sound (len : Nat) (need alloc : List Nat) :
    ∀ (fuel : Nat) (work : List Nat) (finish : List Bool), len ≤ work.length →
      (bankersLoop len need alloc fuel work finish).contains false = false →
      ∃ σ : List Nat, σ.Nodup ∧ (∀ t, t ∈ σ ↔ finish.getD t true = false) ∧
        ValidSeqL len need alloc work σ := by
  intro fuel
  induction fuel with
  | zero =>
    intro work finish hw hres
    refine ⟨[], List.nodup_nil, ?_, trivial⟩
    intro t
    simp only [List.not_mem_nil, false_iff]
    intro ht
    have hc : finish.contains false = true := (contains_false_iff finish).mpr ⟨t, ht⟩
    have hres2 : finish.contains false = false := hres
    rw [hres2] at hc
    exact absurd hc (by simp)
  | succ fuel ih =>
    intro work finish hw hres
    cases hfe : findEligible len need work finish with
    | none =>
      simp only [bankersLoop, hfe] at hres
      refine ⟨[], List.nodup_nil, ?_, trivial⟩
      intro t
      simp only [List.not_mem_nil, false_iff]
      intro ht
      have hc : finish.contains false = true := (contains_false_iff finish).mpr ⟨t, ht⟩
      rw [hres] at hc
      exact absurd hc (by simp)
    | some tid =>
      simp only [bankersLoop, hfe] at hres
      obtain ⟨hft, hrow, htlt⟩ := findEligible_some len need work finish tid hfe
      have hw2 : len ≤ (addRowLoop len work alloc tid).length := by
        rw [addRowLoop_length]
        exact hw
      obtain ⟨σ2, hnd2, hcov2, hval2⟩ := ih (addRowLoop len work alloc tid)
        (finish.set tid true) hw2 hres
      refine ⟨tid :: σ2, ?_, ?_, (rowLeWork_iff len need work tid).mp hrow, hval2⟩
      · rw [List.nodup_cons]
        refine ⟨?_, hnd2⟩
        intro hmem
        have h2 := (hcov2 tid).mp hmem
        rw [getD_set_self_d _ _ _ _ htlt] at h2
        exact absurd h2 (by simp)
      · intro t
        by_cases htt : t = tid
        · subst htt
          exact ⟨fun _ => hft, fun _ => List.mem_cons_self t σ2⟩
        · have h2 := hcov2 t
          rw [getD_set_ne_d _ _ _ _ _ (fun he => htt he.symm)] at h2
          rw [List.mem_cons, h2]
          simp [htt]

/-- A nodup cover of `{t | t < n}` has exactly `n` elements. -/
theorem cover_length (σ : List Nat) (n : Nat) (hnd : σ.Nodup)
    (hcov : ∀ t, t ∈ σ ↔ t < n) : σ.length = n := by
  have hperm : σ.Perm (List.range n) :=
    (List.perm_ext_iff_of_nodup hnd (List.nodup_range n)).mpr
      (fun t => by rw [hcov t, List.mem_range])
  have h2 := hperm.length_eq
  rwa [List.length_range] at h2

/-- Completeness of the code's greedy loop: any admissible completion
order for the unfinished set forces the loop to finish every task. -/
theorem bankersLoop_complete (len : Nat) (need alloc : List Nat) :
    ∀ (fuel : Nat) (work : List Nat) (finish : List Bool) (σ : List Nat),
      len ≤ work.length → σ.Nodup →
      (∀ t, t ∈ σ ↔ finish.getD t true = false) →
      ValidSeqL len need alloc work σ → σ.length ≤ fuel →
      (bankersLoop len need alloc fuel work finish).contains false = false := by
  intro fuel
  induction fuel with
  | zero =>
    intro work finish σ hw hnd hcov hval hlen
    have hσ : σ = [] := List.length_eq_zero.mp (Nat.le_zero.mp hlen)
    subst hσ
    show finish.contains false = false
    by_contra hc
    rw [Bool.not_eq_false] at hc
    obtain ⟨t, ht⟩ := (contains_false_iff finish).mp hc
    have h2 := (hcov t).mpr ht
    exact absurd h2 (by simp)
  | succ fuel ih =>
    intro work finish σ hw hnd hcov hval hlen
    cases hσ : σ with
    | nil =>
      subst hσ
      cases hfe : findEligible len need work finish with
      | some tid =>
        obtain ⟨hft, _, _⟩ := findEligible_some len need work finish tid hfe
        have h2 := (hcov tid).mpr hft
        exact absurd h2 (by simp)
      | none =>
        simp only [bankersLoop, hfe]
        by_contra hc
        rw [Bool.not_eq_false] at hc
        obtain ⟨t, ht⟩ := (contains_false_iff finish).mp hc
        have h2 := (hcov t).mpr ht
        exact absurd h2 (by simp)
    | cons t0 rest =>
      subst hσ
      have ht0 : finish.getD t0 true = false := (hcov t0).mp (by simp)
      have hrow0 : rowLe len need work t0 := hval.1
      cases hfe : findEligible len need work finish with
      | none =>
        have h2 := findEligible_none len need work finish hfe t0 ht0
        have h3 := (rowLeWork_iff len need work t0).mpr hrow0
        rw [h2] at h3
        exact absurd h3 (by simp)
      | some tid =>
        simp only [bankersLoop, hfe]
        obtain ⟨hft, hrowW, htlt⟩ := findEligible_some len need work finish tid hfe
        have hrow : rowLe len need work tid := (rowLeWork_iff len need work tid).mp hrowW
        have htmem : tid ∈ t0 :: rest := (hcov tid).mpr hft
        have hval2 := validSeq_erase len need alloc (t0 :: rest) work hw hnd hval tid htmem hrow
        have hw2 : len ≤ (addRowLoop len work alloc tid).length := by
          rw [addRowLoop_length]
          exact hw
        have hcov2 : ∀ t, t ∈ (t0 :: rest).erase tid ↔
            (finish.set tid true).getD t true = false := by
          intro t
          by_cases htt : t = tid
          · subst htt
            rw [getD_set_self_d _ _ _ _ htlt]
            constructor
            · intro hmem
              exact absurd hmem (List.Nodup.not_mem_erase hnd)
            · intro h2
              exact absurd h2 (by simp)
          · rw [getD_set_ne_d _ _ _ _ _ (fun he => htt he.symm),
              List.Nodup.mem_erase_iff hnd, hcov t]
            simp [htt]
        have hnd2 : ((t0 :: rest).erase tid).Nodup := List.Nodup.erase tid hnd
        have hlen2 : ((t0 :: rest).erase tid).length ≤ fuel := by
          rw [List.length_erase_of_mem htmem]
          simp only [List.length_cons] at hlen ⊢
          omega
        exact ih (addRowLoop len work alloc tid) (finish.set tid true) _ hw2 hnd2 hcov2
          hval2 hlen2

/-- The all-false initial `finish` vector marks exactly the task slots. -/
theorem getD_replicate_false (n t : Nat) :
    (List.replicate n false).getD t true = false ↔ t < n := by
  rw [List.getD_eq_getElem?_getD, List.getElem?_replicate]
  by_cases h : t < n <;> simp [h]

/-- The bumped need matrix agrees with the spec's step 2. -/
theorem detector_need_getD (mlen slen : Nat) (tasks : List (Option TCBInner))
    (flag : Bool) (id gettid : Nat)
    (hwf : wfState tasks mlen slen = true)
    (hid : id < (if flag then slen else mlen))
    (htid : gettid < tasks.length)
    (t j : Nat) (hj : j < mlen + slen) :
    (bumpAt (buildRows (mlen + slen) mlen tasks).2
        (fetch_id mlen flag id + (mlen + slen) * gettid)).getD
      (t * (mlen + slen) + j) 0 = specNeed tasks mlen flag id gettid t j := by
  have hflen : fetch_id mlen flag id < mlen + slen := by
    unfold fetch_id
    cases flag
    · simp only [Bool.false_eq_true, if_false] at hid
      show id < mlen + slen
      omega
    · simp at hid
      show id + mlen < mlen + slen
      omega
  have hN2len : (buildRows (mlen + slen) mlen tasks).2.length =
      (mlen + slen) * tasks.length := by
    unfold buildRows
    rw [(buildRowsAux_length (mlen + slen) mlen tasks 0 _ _).2, List.length_replicate]
  have hbound : fetch_id mlen flag id + (mlen + slen) * gettid <
      (buildRows (mlen + slen) mlen tasks).2.length := by
    rw [hN2len]
    have h2 : (mlen + slen) * (gettid + 1) ≤ (mlen + slen) * tasks.length :=
      Nat.mul_le_mul_left _ htid
    have h3 : (mlen + slen) * (gettid + 1) = (mlen + slen) * gettid + (mlen + slen) := by
      ring
    omega
  rw [bumpAt_getD _ _ _ hbound, (buildRows_getD mlen slen tasks hwf t j hj).2]
  unfold specNeed
  have hiff := flat_eq_iff (mlen + slen) gettid t j (fetch_id mlen flag id) hj hflen
  by_cases hcond : t = gettid ∧ fetch_id mlen flag id = j
  · rw [if_pos (hiff.mpr hcond).symm, if_pos hcond]
  · rw [if_neg (fun h2 => hcond (hiff.mp h2.symm)), if_neg hcond]

/-- The spec-side relaxation and the list-side one coincide when the
matrices and work vectors agree pointwise. -/
theorem svalid_iff_validL (len : Nat) (needF allocF : Nat → Nat → Nat)
    (needM allocM : List Nat) :
    ∀ (σ : List Nat) (wF : Nat → Nat) (wL : List Nat),
      len ≤ wL.length →
      (∀ j, j < len → wF j = wL.getD j 0) →
      (∀ t, t ∈ σ → ∀ j, j < len → needF t j = needM.getD (t * len + j) 0) →
      (∀ t, t ∈ σ → ∀ j, j < len → allocF t j = allocM.getD (t * len + j) 0) →
      (SValidSeq len needF allocF wF σ ↔ ValidSeqL len needM allocM wL σ) := by
  intro σ
  induction σ with
  | nil =>
    intro wF wL _ _ _ _
    exact ⟨fun _ => trivial, fun _ => trivial⟩
  | cons t σ ih =>
    intro wF wL hw hcw hcn hca
    show ((∀ j, j < len → needF t j ≤ wF j) ∧
        SValidSeq len needF allocF (fun j => wF j + allocF t j) σ) ↔
      (rowLe len needM wL t ∧ ValidSeqL len needM allocM (addRowLoop len wL allocM t) σ)
    have hhead : (∀ j, j < len → needF t j ≤ wF j) ↔ rowLe len needM wL t := by
      unfold rowLe
      constructor
      · intro h j hj
        rw [← hcn t (by simp) j hj, ← hcw j hj]
        exact h j hj
      · intro h j hj
        rw [hcn t (by simp) j hj, hcw j hj]
        exact h j hj
    have htail : SValidSeq len needF allocF (fun j => wF j + allocF t j) σ ↔
        ValidSeqL len needM allocM (addRowLoop len wL allocM t) σ := by
      apply ih
      · rw [addRowLoop_length]
        exact hw
      · intro j hj
        rw [addRowLoop_getD _ _ _ _ _ hw, if_pos hj, hcw j hj, hca t (by simp) j hj]
      · intro t2 ht2 j hj
        exact hcn t2 (by simp [ht2]) j hj
      · intro t2 ht2 j hj
        exact hca t2 (by simp [ht2]) j hj
    exact and_congr hhead htail

/-- C2: `deadlock_detect` reports unsafe exactly when the Banker's
relaxation of the spec fails — with `Work` built from unlocked mutexes and
live semaphore counts, `Need` from the pending needs plus the hypothetical
request in the requester's row, and `Allocation` from the held resources,
there is no order at all ("repeatedly find any task, mark it finished, add
its allocation into Work") that finishes every task slot. -/
theorem c2_detector_bankers
    (tasks : List (Option TCBInner)) (ml : List (Option MutexState))
    (sl : List (Option SemState)) (flag : Bool) (id gettid : Nat)
    (hwf : wfState tasks ml.length sl.length = true)
    (hid : id < (if flag then sl.length else ml.length))
    (htid : gettid < tasks.length) :
    (deadlock_detect tasks ml sl flag id gettid = true ↔
      ¬ ∃ σ : List Nat, σ.Nodup ∧ (∀ t, t ∈ σ ↔ t < tasks.length) ∧
        SValidSeq (ml.length + sl.length)
          (specNeed tasks ml.length flag id gettid)
          (specAlloc tasks ml.length)
          (specWork ml sl) σ) := by
  have hmain : deadlock_detect tasks ml sl flag id gettid =
      (bankersLoop (ml.length + sl.length)
        (bumpAt (buildRows (ml.length + sl.length) ml.length tasks).2
          (fetch_id ml.length flag id + (ml.length + sl.length) * gettid))
        (buildRows (ml.length + sl.length) ml.length tasks).1
        tasks.length
        (buildWork ml sl (ml.length + sl.length))
        (List.replicate tasks.length false)).contains false := rfl
  rw [hmain]
  have hWlen : (ml.length + sl.length) ≤ (buildWork ml sl (ml.length + sl.length)).length := by
    rw [buildWork_length]
  have hNcorr : ∀ t j, j < ml.length + sl.length →
      (bumpAt (buildRows (ml.length + sl.length) ml.length tasks).2
        (fetch_id ml.length flag id + (ml.length + sl.length) * gettid)).getD
          (t * (ml.length + sl.length) + j) 0 =
        specNeed tasks ml.length flag id gettid t j := by
    intro t j hj
    exact detector_need_getD ml.length sl.length tasks flag id gettid hwf hid htid t j hj
  have hAcorr : ∀ t j, j < ml.length + sl.length →
      (buildRows (ml.length + sl.length) ml.length tasks).1.getD
          (t * (ml.length + sl.length) + j) 0 = specAlloc tasks ml.length t j := by
    intro t j hj
    exact (buildRows_getD ml.length sl.length tasks hwf t j hj).1
  have hWcorr : ∀ j, j < ml.length + sl.length →
      specWork ml sl j = (buildWork ml sl (ml.length + sl.length)).getD j 0 := by
    intro j hj
    exact (buildWork_getD ml sl j hj).symm
  constructor
  · rintro hcont ⟨σ, hnd, hcov, hsval⟩
    have hvalL := (svalid_iff_validL (ml.length + sl.length) _ _ _ _ σ _ _ hWlen hWcorr
      (fun t _ j hj => (hNcorr t j hj).symm)
      (fun t _ j hj => (hAcorr t j hj).symm)).mp hsval
    have hcovR : ∀ t, t ∈ σ ↔
        (List.replicate tasks.length false).getD t true = false := by
      intro t
      rw [hcov t, getD_replicate_false]
    have hlen2 : σ.length ≤ tasks.length :=
      Nat.le_of_eq (cover_length σ tasks.length hnd hcov)
    have hcomp := bankersLoop_complete (ml.length + sl.length) _ _ tasks.length _ _ σ
      hWlen hnd hcovR hvalL hlen2
    rw [hcomp] at hcont
    exact absurd hcont (by simp)
  · intro hnex
    by_contra hfalse
    rw [Bool.not_eq_true] at hfalse
    obtain ⟨σ, hnd, hcovR, hvalL⟩ := bankersLoop_sound (ml.length + sl.length) _ _
      tasks.length _ _ hWlen hfalse
    apply hnex
    refine ⟨σ, hnd, ?_, ?_⟩
    · intro t
      rw [hcovR t, getD_replicate_false]
    · exact (svalid_iff_validL (ml.length + sl.length) _ _ _ _ σ _ _ hWlen hWcorr
        (fun t _ j hj => (hNcorr t j hj).symm)
        (fun t _ j hj => (hAcorr t j hj).symm)).mpr hvalL

/-- C2 witness: the crossed-deadlock state, hypothetical semaphore-down by
task 0, is judged unsafe, so no completion order covering both tasks
exists. -/
theorem c2_witness :
    wfState wsCross.tasks wsCross.mutex_list.length wsCross.semaphore_list.length = true ∧
    (0 : Nat) < (if (true : Bool) then wsCross.semaphore_list.length
      else wsCross.mutex_list.length) ∧
    (0 : Nat) < wsCross.tasks.length ∧
    (deadlock_detect wsCross.tasks wsCross.mutex_list wsCross.semaphore_list true 0 0 = true ↔
      ¬ ∃ σ : List Nat, σ.Nodup ∧ (∀ t, t ∈ σ ↔ t < wsCross.tasks.length) ∧
        SValidSeq (wsCross.mutex_list.length + wsCross.semaphore_list.length)
          (specNeed wsCross.tasks wsCross.mutex_list.length true 0 0)
          (specAlloc wsCross.tasks wsCross.mutex_list.length)
          (specWork wsCross.mutex_list wsCross.semaphore_list) σ) :=
  ⟨by decide, by decide, by decide,
   c2_detector_bankers wsCross.tasks wsCross.mutex_list wsCross.semaphore_list true 0 0
     (by decide) (by decide) (by decide)⟩

end RCore
